import Mathlib

/-!
Verification of the RobotVision `transformations.h` module (shallow embedding).

Real-valued C++ `double` arithmetic is embedded over `ℝ`; fixed-size TooN
vectors and matrices become `Fin n → ℝ` and `Matrix (Fin m) (Fin n) ℝ`.
Functions of the source file keep their names.  External collaborators that
the source consumes (the TooN transform library's group operations and
exponential map, the `maths_utils.h` helpers, the linear camera) are modelled
from the specification; each such definition carries a doc comment saying so.
-/

namespace RobotVision

abbrev Vec2 : Type := Fin 2 → ℝ
abbrev Vec3 : Type := Fin 3 → ℝ
abbrev Vec6 : Type := Fin 6 → ℝ
abbrev Mat3 : Type := Matrix (Fin 3) (Fin 3) ℝ

/-- Modelled from the spec: `Po2` from the repository's `maths_utils.h`
(declared outside `src/`), the squaring helper used by the Jacobian code. -/
def Po2 (x : ℝ) : ℝ := x * x

/-- Modelled from the spec: `Po3` from `maths_utils.h`, the cubing helper. -/
def Po3 (x : ℝ) : ℝ := x * x * x

/-- Modelled from the spec: the "cross product → skew matrix" helper of the
external linear-algebra library (`skew` in `maths_utils.h`). -/
def skew (w : Vec3) : Mat3 :=
  !![0, -w 2, w 1; w 2, 0, -w 0; -w 1, w 0, 0]

/-- Modelled from the spec: `deltaR` from `maths_utils.h`: the `vee`
extraction of "the three off-diagonal differences" of `R`, i.e. `vee (R − Rᵀ)`. -/
def deltaR (R : Mat3) : Vec3 :=
  ![R 2 1 - R 1 2, R 0 2 - R 2 0, R 1 0 - R 0 1]

/-- The `vee` operator exactly as the specification words it: the vector of a
skew-symmetric matrix, to be applied to `R − Rᵀ`. -/
def vee (M : Mat3) : Vec3 := ![M 2 1, M 0 2, M 1 0]

/-- A rigid transform: value content of the external library's `TooN::SE3<>`
(rotation matrix and translation vector). -/
structure RVSE3 : Type where
  R : Mat3
  t : Vec3

/-- Modelled from the spec: group composition of the transform library,
`(A*B) = (R_A R_B, R_A t_B + t_A)`. -/
def RVSE3.mul (A B : RVSE3) : RVSE3 :=
  ⟨A.R * B.R, A.R.mulVec B.t + A.t⟩

instance : Mul RVSE3 := ⟨RVSE3.mul⟩

/-- Modelled from the spec: group inverse of the transform library,
`T⁻¹ = (Rᵀ, −Rᵀ t)`. -/
def RVSE3.inv (A : RVSE3) : RVSE3 :=
  ⟨A.R.transpose, -(A.R.transpose.mulVec A.t)⟩

instance : Inv RVSE3 := ⟨RVSE3.inv⟩

/-- The identity rigid transform. -/
def idSE3 : RVSE3 := ⟨1, 0⟩

/-- Modelled from the spec: the transform library's exponential map on the
rotation group (`TooN::SO3<>(omega)`), the Rodrigues formula. -/
noncomputable def so3exp (w : Vec3) : Mat3 :=
  let theta := Real.sqrt (w 0 * w 0 + w 1 * w 1 + w 2 * w 2)
  1 + (Real.sin theta / theta) • skew w
    + ((1 - Real.cos theta) / (theta * theta)) • (skew w * skew w)

/-- Modelled from the spec: the `V` matrix of the SE3 exponential map (the
translation part of `exp` is `V·ρ`). -/
noncomputable def se3V (w : Vec3) : Mat3 :=
  let theta := Real.sqrt (w 0 * w 0 + w 1 * w 1 + w 2 * w 2)
  1 + ((1 - Real.cos theta) / (theta * theta)) • skew w
    + ((theta - Real.sin theta) / (theta * theta * theta)) • (skew w * skew w)

/-- Modelled from the spec: construction of a rigid transform from a tangent
6-vector (`TooN::SE3<>(delta)`, the exponential map).  The library convention
puts the translational components first and the rotational components last,
as the source itself records via `first_trans_id() = 0`, `first_rot_id() = 3`
and via the layout of `dexp_x_T_ddelta`. -/
noncomputable def se3FromVector (v : Vec6) : RVSE3 :=
  let rho : Vec3 := fun i => v (Fin.castAdd 3 i)
  let w : Vec3 := fun i => v (Fin.natAdd 3 i)
  ⟨so3exp w, (se3V w).mulVec rho⟩

namespace SE3Helper

/-- The quantity `d = 0.5*(R(0,0)+R(1,1)+R(2,2)-1)` computed identically at
the top of `ln_so3`, `ln`, `dlnR_dR`, `dVinvt_dR` and `dlnT_dT`. -/
def dTrace (R : Mat3) : ℝ := 0.5 * (R 0 0 + R 1 1 + R 2 2 - 1)

/-- `SE3Helper::ln_so3` (src/transformations.h lines 475–489). -/
noncomputable def ln_so3 (R : Mat3) : Vec3 :=
  if dTrace R > 0.99999 then
    (0.5 : ℝ) • deltaR R
  else
    (Real.arccos (dTrace R) / (2 * Real.sqrt (1 - dTrace R * dTrace R))) • deltaR R

/-- `SE3Helper::ln_so3xR3` (lines 492–498): rotation log in the first three
components, raw translation in the last three. -/
noncomputable def ln_so3xR3 (T : RVSE3) : Vec6 :=
  Fin.append (ln_so3 T.R) T.t

/-- `SE3Helper::ln` (lines 501–529). -/
noncomputable def ln (R : Mat3) (t : Vec3) : Vec6 :=
  let d := dTrace R
  if d > 0.99999 then
    let omega : Vec3 := (0.5 : ℝ) • deltaR R
    let Omega := skew omega
    let V_inv : Mat3 := 1 - (0.5 : ℝ) • Omega + (1 / 12 : ℝ) • (Omega * Omega)
    Fin.append omega (V_inv.mulVec t)
  else
    let theta := Real.arccos d
    let omega : Vec3 := (theta / (2 * Real.sqrt (1 - d * d))) • deltaR R
    let Omega := skew omega
    let V_inv : Mat3 := 1 - (0.5 : ℝ) • Omega
      + ((1 - theta / (2 * Real.tan (theta / 2))) / (theta * theta)) • (Omega * Omega)
    Fin.append omega (V_inv.mulVec t)

/-- `SE3Helper::M3x9` (lines 531–544): the 3×9 matrix whose columns are
`a, -B.col 2, B.col 1, B.col 2, a, -B.col 0, -B.col 1, B.col 0, a`. -/
def M3x9 (a : Vec3) (B : Mat3) : Matrix (Fin 3) (Fin 9) ℝ :=
  Matrix.of fun r c =>
    ![a r, -B r 2, B r 1, B r 2, a r, -B r 0, -B r 1, B r 0, a r] c

/-- The general (`else`) branch of `SE3Helper::dlnR_dR` (lines 559–566). -/
noncomputable def dlnR_dR_general (R : Mat3) : Matrix (Fin 3) (Fin 9) ℝ :=
  let d := dTrace R
  let theta := Real.arccos d
  let sq := Real.sqrt (1 - d * d)
  M3x9 (((d * theta - sq) / (4 * Po3 sq)) • deltaR R) ((-(theta / (2 * sq))) • 1)

/-- `SE3Helper::dlnR_dR` (lines 546–568): near-identity branch for
`d > 0.99999`, general branch otherwise. -/
noncomputable def dlnR_dR (R : Mat3) : Matrix (Fin 3) (Fin 9) ℝ :=
  if dTrace R > 0.99999 then M3x9 0 ((-0.5 : ℝ) • 1) else dlnR_dR_general R

/-- `SE3Helper::ddeltaRt_dR` (lines 570–585). -/
def ddeltaRt_dR (T : RVSE3) : Mat3 :=
  let t := T.t
  let abc := deltaR T.R
  let a := abc 0
  let b := abc 1
  let c := abc 2
  Matrix.of fun r col =>
    ![![-b * t 1 - c * t 2, 2 * b * t 0 - a * t 1, 2 * c * t 0 - a * t 2],
      ![-b * t 0 + 2 * a * t 1, -a * t 0 - c * t 2, 2 * c * t 1 - b * t 2],
      ![-c * t 0 + 2 * a * t 2, -c * t 1 + 2 * b * t 2, -a * t 0 - b * t 1]] r col

/-- The general (`else`) branch of `SE3Helper::dVinvt_dR` (lines 602–618). -/
noncomputable def dVinvt_dR_general (T : RVSE3) : Matrix (Fin 3) (Fin 9) ℝ :=
  let R := T.R
  let t := T.t
  let d := dTrace R
  let theta := Real.arccos d
  let theta2 := theta * theta
  let oned2 := 1 - d * d
  let sq := Real.sqrt oned2
  let cot := 1 / Real.tan (0.5 * theta)
  let csc2 := Po2 (1 / Real.sin (0.5 * theta))
  let skewR := skew (deltaR R)
  let a : Vec3 := (-(d * theta - sq) / (8 * Po3 sq)) • skewR.mulVec t
    + ((((theta * sq - d * theta2) * (0.5 * theta * cot - 1))
          - theta * sq * ((0.25 * theta * cot) + 0.125 * theta2 * csc2 - 1))
        / (4 * theta2 * Po2 oned2)) • skewR.mulVec (skewR.mulVec t)
  let B : Mat3 := (-(0.5 * theta) / (2 * sq)) • skew t
    - ((theta * cot - 2) / (8 * oned2)) • ddeltaRt_dR T
  M3x9 a B

/-- `SE3Helper::dVinvt_dR` (lines 587–620).  Note the near-identity threshold
in the source is `d > 0.9999` here, not `0.99999`. -/
noncomputable def dVinvt_dR (T : RVSE3) : Matrix (Fin 3) (Fin 9) ℝ :=
  if dTrace T.R > 0.9999 then M3x9 0 0 else dVinvt_dR_general T

/-- The flattening of a rigid transform into 12 reals used by the 6×12 / 12×6
Jacobians: the three columns of `R` (column-major) followed by `t`. -/
def flattenSE3 (T : RVSE3) : Fin 12 → ℝ :=
  fun r =>
    if h : (r : ℕ) < 9 then
      T.R ⟨(r : ℕ) % 3, by omega⟩ ⟨(r : ℕ) / 3, by omega⟩
    else
      T.t ⟨(r : ℕ) - 9, by have := r.isLt; omega⟩

/-- `SE3Helper::dexp_x_T_ddelta` (lines 654–666): the 12×6 Jacobian of
`exp(δ)·T` with respect to `δ` at `δ = 0`.  Row blocks 0–2, 3–5, 6–8 are the
columns of `R`, rows 9–11 are the translation; columns 0–2 are the
translational components of `δ`, columns 3–5 the rotational ones. -/
def dexp_x_T_ddelta (T : RVSE3) : Matrix (Fin 12) (Fin 6) ℝ :=
  Matrix.of fun r c =>
    if h9 : (r : ℕ) < 9 then
      if h3 : (c : ℕ) < 3 then 0
      else
        -(skew (fun a => T.R a ⟨(r : ℕ) / 3, by omega⟩))
          ⟨(r : ℕ) % 3, by omega⟩ ⟨(c : ℕ) - 3, by have := c.isLt; omega⟩
    else
      if h3 : (c : ℕ) < 3 then
        (if (r : ℕ) - 9 = (c : ℕ) then 1 else 0)
      else
        -(skew T.t) ⟨(r : ℕ) - 9, by have := r.isLt; omega⟩
          ⟨(c : ℕ) - 3, by have := c.isLt; omega⟩

end SE3Helper

/-- The step `h = 0.000000000001` of every numerical-differentiation default
in the source (`AbstractPrediction::frameJac`/`pointJac`,
`AbstractConFun::d_diff_dT1`/`d_diff_dT2`). -/
noncomputable def numh : ℝ := 0.000000000001

/-- `AbstractPrediction::frameJac` default (lines 81–97): forward differences
along each frame perturbation axis, via the model's own `add`. -/
noncomputable def numFrameJac {Frame : Type} {PointParNum FrameDoF ObsDim : ℕ}
    (map : Frame → (Fin PointParNum → ℝ) → Fin ObsDim → ℝ)
    (add : Frame → (Fin FrameDoF → ℝ) → Frame)
    (T : Frame) (x : Fin PointParNum → ℝ) :
    Matrix (Fin ObsDim) (Fin FrameDoF) ℝ :=
  Matrix.of fun r i => (map (add T (Pi.single i numh)) x r - map T x r) / numh

/-- `AbstractPrediction::pointJac` default (lines 100–116): forward
differences along each point perturbation axis. -/
noncomputable def numPointJac {Frame : Type} {PointParNum PointDoF ObsDim : ℕ}
    (map : Frame → (Fin PointParNum → ℝ) → Fin ObsDim → ℝ)
    (addPoint : (Fin PointParNum → ℝ) → (Fin PointDoF → ℝ) → Fin PointParNum → ℝ)
    (T : Frame) (x : Fin PointParNum → ℝ) :
    Matrix (Fin ObsDim) (Fin PointDoF) ℝ :=
  Matrix.of fun r i => (map T (addPoint x (Pi.single i numh)) r - map T x r) / numh

/-- `AbstractConFun::d_diff_dT1` default (lines 428–443): forward differences
perturbing `T1` via the model's `add`. -/
noncomputable def numDDiffDT1 {Trans : Type} {TransDoF : ℕ}
    (diff : Trans → Trans → Trans → Fin TransDoF → ℝ)
    (add : Trans → (Fin TransDoF → ℝ) → Trans)
    (T1 C T2 : Trans) : Matrix (Fin TransDoF) (Fin TransDoF) ℝ :=
  Matrix.of fun r i => (diff (add T1 (Pi.single i numh)) C T2 r - diff T1 C T2 r) / numh

/-- `AbstractConFun::d_diff_dT2` default (lines 448–463): forward differences
perturbing `T2` via the model's `add`. -/
noncomputable def numDDiffDT2 {Trans : Type} {TransDoF : ℕ}
    (diff : Trans → Trans → Trans → Fin TransDoF → ℝ)
    (add : Trans → (Fin TransDoF → ℝ) → Trans)
    (T1 C T2 : Trans) : Matrix (Fin TransDoF) (Fin TransDoF) ℝ :=
  Matrix.of fun r i => (diff T1 C (add T2 (Pi.single i numh)) r - diff T1 C T2 r) / numh

/-- `SE3ConFun::diff` (lines 716–722): `ln ((C*T1) * T2⁻¹)`. -/
noncomputable def SE3ConFun_diff (T1 C T2 : RVSE3) : Vec6 :=
  let D := (C * T1) * T2⁻¹
  SE3Helper.ln D.R D.t

/-- `SE3ConFun::add` (lines 752–755): `SE3(delta) * T`. -/
noncomputable def SE3ConFun_add (T : RVSE3) (delta : Vec6) : RVSE3 :=
  se3FromVector delta * T

/-- The relative transform at which `SE3ConFun::diff` evaluates the SE3
logarithm (line 720): `D = (C*T1) * T2.inverse()`. -/
def SE3ConFun_diff_relative (T1 C T2 : RVSE3) : RVSE3 := (C * T1) * T2⁻¹

/-- The relative transform at which `SE3ConFun::d_diff_dT1` evaluates
`dlnT_dT` (line 733): `D = T1*C*T2.inverse()`. -/
def SE3ConFun_dT1_relative (T1 C T2 : RVSE3) : RVSE3 := (T1 * C) * T2⁻¹

/-- The relative transform at which `SE3ConFun::d_diff_dT2` evaluates
`dlnT_dT` (line 747): `D = T1*C*T2.inverse()`. -/
def SE3ConFun_dT2_relative (T1 C T2 : RVSE3) : RVSE3 := (T1 * C) * T2⁻¹

/-- The value content of an `AbstractConFun<TooN::SE3<>,6>` subclass: its
residual `diff`, its perturbation `add`, and its two (possibly overridden)
Jacobian methods. -/
structure ConFunModel : Type where
  diff : RVSE3 → RVSE3 → RVSE3 → Vec6
  add : RVSE3 → Vec6 → RVSE3
  d_diff_dT1 : RVSE3 → RVSE3 → RVSE3 → Matrix (Fin 6) (Fin 6) ℝ
  d_diff_dT2 : RVSE3 → RVSE3 → RVSE3 → Matrix (Fin 6) (Fin 6) ℝ

/-- `SO3xR3ConFun::diff` (lines 766–771): `ln_so3xR3 ((C*T1) * T2⁻¹)`. -/
noncomputable def SO3xR3_diff (T1 C T2 : RVSE3) : Vec6 :=
  SE3Helper.ln_so3xR3 ((C * T1) * T2⁻¹)

/-- `SO3xR3ConFun::add` (lines 773–780): left-multiply the rotation by
`SO3(delta.slice(3,3))` and add `delta.slice(0,3)` to the translation. -/
noncomputable def SO3xR3_add (T : RVSE3) (delta : Vec6) : RVSE3 :=
  ⟨so3exp (fun i => delta (Fin.natAdd 3 i)) * T.R,
   T.t + fun i => delta (Fin.castAdd 3 i)⟩

/-- `SO3xR3ConFun` (lines 760–781): overrides only `diff` and `add`; the
Jacobians are the inherited numerical defaults. -/
noncomputable def SO3xR3ConFun : ConFunModel :=
  ⟨SO3xR3_diff, SO3xR3_add,
   numDDiffDT1 SO3xR3_diff SO3xR3_add, numDDiffDT2 SO3xR3_diff SO3xR3_add⟩

/-- `SE3ConFunSO3xR3::diff` (lines 793–798): `ln_so3xR3 ((C*T1) * T2⁻¹)`. -/
noncomputable def SE3SO3xR3_diff (T1 C T2 : RVSE3) : Vec6 :=
  SE3Helper.ln_so3xR3 ((C * T1) * T2⁻¹)

/-- `SE3ConFunSO3xR3::add` (lines 800–803): `SE3(delta) * T`. -/
noncomputable def SE3SO3xR3_add (T : RVSE3) (delta : Vec6) : RVSE3 :=
  se3FromVector delta * T

/-- `SE3ConFunSO3xR3` (lines 787–804): overrides only `diff` and `add`; the
Jacobians are the inherited numerical defaults. -/
noncomputable def SE3ConFunSO3xR3 : ConFunModel :=
  ⟨SE3SO3xR3_diff, SE3SO3xR3_add,
   numDDiffDT1 SE3SO3xR3_diff SE3SO3xR3_add, numDDiffDT2 SE3SO3xR3_diff SE3SO3xR3_add⟩

/-- Modelled from the spec: the injected linear camera collaborator, an
affine pixel map with a constant Jacobian. -/
structure LinCam : Type where
  jac : Matrix (Fin 2) (Fin 2) ℝ
  center : Vec2

/-- Modelled from the spec: the camera's `map(ray) → pixel`. -/
noncomputable def LinCam.map (cam : LinCam) (ray : Vec2) : Vec2 :=
  cam.jac.mulVec ray + cam.center

/-- Modelled from the spec: `TooN::project`, division by the last coordinate. -/
noncomputable def proj2 (v : Vec3) : Vec2 := ![v 0 / v 2, v 1 / v 2]

/-- `SE3UVQ::map` (lines 304–311): reconstruct the Euclidean point from
inverse-depth coordinates `x = (u,v,1)/q`, rigidly transform, project, apply
the camera. -/
noncomputable def SE3UVQ_map (cam : LinCam) (T : RVSE3) (uvq : Vec3) : Vec2 :=
  let x : Vec3 := (1 / uvq 2) • ![uvq 0, uvq 1, 1]
  cam.map (proj2 (T.R.mulVec x + T.t))

/-- The matrix `J_x = 1/(z*q) * tmp * R12t` of `SE3UVQ::pointJac`
(lines 337–363), before the camera Jacobian is applied: `R12t` has the first
two columns of `R` and the translation as columns, and
`tmp = [[1,0,−x/z],[0,1,−y/z]]`. -/
noncomputable def SE3UVQ_Jx (T : RVSE3) (uvq : Vec3) : Matrix (Fin 2) (Fin 3) ℝ :=
  let xyz : Vec3 := (1 / uvq 2) • ![uvq 0, uvq 1, 1]
  let xyz_trans := T.R.mulVec xyz + T.t
  let x := xyz_trans 0
  let y := xyz_trans 1
  let z := xyz_trans 2
  let R12t : Mat3 := Matrix.of fun r c => ![T.R r 0, T.R r 1, T.t r] c
  let tmp : Matrix (Fin 2) (Fin 3) ℝ := !![1, 0, -x / z; 0, 1, -y / z]
  (1 / (z * uvq 2)) • (tmp * R12t)

/-- `SE3UVQ::pointJac` (lines 337–363): the camera Jacobian times `J_x`. -/
noncomputable def SE3UVQ_pointJac (cam : LinCam) (T : RVSE3) (uvq : Vec3) :
    Matrix (Fin 2) (Fin 3) ℝ :=
  cam.jac * SE3UVQ_Jx T uvq

/-- The pre-camera part of `SE3UVQ::map`: reconstruct, transform, project.
Its Jacobian with respect to `(u,v,q)` is what `J_x` claims to be. -/
noncomputable def SE3UVQ_premap (T : RVSE3) (uvq : Vec3) : Vec2 :=
  proj2 (T.R.mulVec ((1 / uvq 2) • ![uvq 0, uvq 1, 1]) + T.t)

/-- `IdObs` (lines 378–390): an immutable identified observation. -/
structure IdObs (ObsDim : ℕ) : Type where
  frame_id : ℤ
  point_id : ℤ
  obs : Fin ObsDim → ℝ

/-- The `IdObs` constructor (lines 382–385). -/
def IdObs.make (ObsDim : ℕ) (point_id frame_id : ℤ) (obs : Fin ObsDim → ℝ) :
    IdObs ObsDim :=
  ⟨frame_id, point_id, obs⟩

/-- `IdObsLambda` (lines 394–406).  The member declared at line 405 is
`TooN::Matrix<2,2> lambda` — fixed at 2×2 for every `ObsDim`. -/
structure IdObsLambda (ObsDim : ℕ) extends IdObs ObsDim : Type where
  lambda : Matrix (Fin 2) (Fin 2) ℝ

/-- The `IdObsLambda` constructor (lines 398–404), restricted to the only
well-typed instantiation `ObsDim = 2` of its `lambda` parameter. -/
def IdObsLambda.make (point_id frame_id : ℤ) (obs : Fin 2 → ℝ)
    (lam : Matrix (Fin 2) (Fin 2) ℝ) : IdObsLambda 2 :=
  ⟨IdObs.make 2 point_id frame_id obs, lam⟩

/-- Row/column dimension of the `lambda` member declared at line 405
(`TooN::Matrix<2,2>`), as a function of the template parameter `ObsDim`. -/
def IdObsLambda.memberLambdaDim (ObsDim : ℕ) : ℕ × ℕ := (2, 2)

/-- Row/column dimension of the `lambda` parameter of the `IdObsLambda`
constructor at line 401 (`TooN::Matrix<ObsDim,ObsDim>`). -/
def IdObsLambda.ctorLambdaDim (ObsDim : ℕ) : ℕ × ℕ := (ObsDim, ObsDim)

/-- The SE3 logarithm exactly as claim C2 words it: with
`d = (trace(R)-1)/2`, near-identity branch for `d > 0.99999`
(`ω = 0.5·vee(R−Rᵀ)`, `V⁻¹ = I − ½Ω + (1/12)Ω²`), general branch otherwise
(`θ = acos d`, `ω = θ/(2√(1−d²))·vee(R−Rᵀ)`,
`V⁻¹ = I − ½Ω + ((1−θ/(2 tan(θ/2)))/θ²)Ω²`), returning `[ω; V⁻¹t]`. -/
noncomputable def ln_claimC2 (R : Mat3) (t : Vec3) : Vec6 :=
  let d := (Matrix.trace R - 1) / 2
  if d > 0.99999 then
    let omega : Vec3 := (0.5 : ℝ) • vee (R - R.transpose)
    let Omega := skew omega
    let V_inv : Mat3 := 1 - (0.5 : ℝ) • Omega + (1 / 12 : ℝ) • (Omega * Omega)
    Fin.append omega (V_inv.mulVec t)
  else
    let theta := Real.arccos d
    let omega : Vec3 := (theta / (2 * Real.sqrt (1 - d ^ 2))) • vee (R - R.transpose)
    let Omega := skew omega
    let V_inv : Mat3 := 1 - (0.5 : ℝ) • Omega
      + ((1 - theta / (2 * Real.tan (theta / 2))) / theta ^ 2) • (Omega * Omega)
    Fin.append omega (V_inv.mulVec t)

/-- Rotation by 90 degrees about the z axis (an exact rotation matrix). -/
def Rz90 : Mat3 := !![0, -1, 0; 1, 0, 0; 0, 0, 1]

/-- Concrete input: a pure translation along x. -/
def T1ex : RVSE3 := ⟨1, ![1, 0, 0]⟩

/-- Concrete input: a pure rotation by 90 degrees about z. -/
def Cex : RVSE3 := ⟨Rz90, 0⟩

/-- Concrete input: a pure translation along z. -/
def T2ex : RVSE3 := ⟨1, ![0, 0, 1]⟩

/-- A rational rotation matrix about z with `cos = 62499/62501`, which lies
strictly between the two near-identity thresholds `0.9999` and `0.99999`. -/
noncomputable def Rnear : Mat3 :=
  !![62499 / 62501, -(500 / 62501), 0; 500 / 62501, 62499 / 62501, 0; 0, 0, 1]

/-- Concrete transform built on `Rnear`. -/
noncomputable def Tnear : RVSE3 := ⟨Rnear, ![1, 2, 3]⟩

/-- Concrete witness inputs for the constraint claims. -/
def T1w : RVSE3 := ⟨Rz90, ![1, 2, 3]⟩

/-- Concrete witness inputs for the constraint claims. -/
def T2w : RVSE3 := ⟨1, ![5, 0, 0]⟩

/-- Identity-like camera for witnesses. -/
def camW : LinCam := ⟨1, 0⟩

/-- Witness inverse-depth point `(0,0,1)`. -/
def uvqW : Vec3 := ![0, 0, 1]

/-! ## Helper lemmas -/

@[simp]
theorem RVSE3.mul_R (A B : RVSE3) : (A * B).R = A.R * B.R := rfl

@[simp]
theorem RVSE3.mul_t (A B : RVSE3) : (A * B).t = A.R.mulVec B.t + A.t := rfl

@[simp]
theorem RVSE3.inv_R (A : RVSE3) : (A⁻¹).R = A.R.transpose := rfl

@[simp]
theorem RVSE3.inv_t (A : RVSE3) : (A⁻¹).t = -(A.R.transpose.mulVec A.t) := rfl

theorem RVSE3.eq_of_parts {A B : RVSE3} (hR : A.R = B.R) (ht : A.t = B.t) :
    A = B := by
  cases A; cases B; simp_all

theorem dTrace_one : SE3Helper.dTrace (1 : Mat3) = 1 := by
  simp [SE3Helper.dTrace, Matrix.one_apply]
  norm_num

theorem deltaR_one : deltaR (1 : Mat3) = 0 := by
  funext i
  fin_cases i <;> simp [deltaR, Matrix.one_apply]

theorem skew_zero : skew (0 : Vec3) = 0 := by
  ext i j
  fin_cases i <;> fin_cases j <;> simp [skew, Matrix.vecHead, Matrix.vecTail]

theorem ln_one (t : Vec3) : SE3Helper.ln 1 t = Fin.append (0 : Vec3) t := by
  have h : SE3Helper.dTrace (1 : Mat3) > 0.99999 := by
    rw [dTrace_one]; norm_num
  simp [SE3Helper.ln, h, deltaR_one, skew_zero, Matrix.one_mulVec]

theorem ln_so3_one : SE3Helper.ln_so3 (1 : Mat3) = 0 := by
  have h : SE3Helper.dTrace (1 : Mat3) > 0.99999 := by
    rw [dTrace_one]; norm_num
  simp [SE3Helper.ln_so3, h, deltaR_one]

theorem append_zero_zero : Fin.append (0 : Vec3) (0 : Vec3) = (0 : Vec6) := by
  funext i
  refine Fin.addCases (motive := fun i => Fin.append (0 : Vec3) (0 : Vec3) i = (0 : Vec6) i)
    (fun j => ?_) (fun j => ?_) i
  · show Fin.append (0 : Vec3) (0 : Vec3) (Fin.castAdd 3 j) = (0 : Vec6) (Fin.castAdd 3 j)
    rw [Fin.append_left]
    rfl
  · show Fin.append (0 : Vec3) (0 : Vec3) (Fin.natAdd 3 j) = (0 : Vec6) (Fin.natAdd 3 j)
    rw [Fin.append_right]
    rfl

/-! ## C10 -/

/-- C10: the `IdObs`/`IdObsLambda` constructors store the identifiers, the
measurement and (at the only well-typed dimension, 2) the information matrix
unchanged; but the `lambda` member is declared `TooN::Matrix<2,2>` for every
`ObsDim`, so its dimension disagrees with the constructor's
`ObsDim × ObsDim` parameter whenever `ObsDim ≠ 2` (here at `ObsDim = 3`). -/
theorem C10_lambda_member_dimension :
    (∀ (O : ℕ) (pid fid : ℤ) (obs : Fin O → ℝ),
      (IdObs.make O pid fid obs).point_id = pid ∧
      (IdObs.make O pid fid obs).frame_id = fid ∧
      (IdObs.make O pid fid obs).obs = obs) ∧
    (∀ (pid fid : ℤ) (obs : Fin 2 → ℝ) (lam : Matrix (Fin 2) (Fin 2) ℝ),
      (IdObsLambda.make pid fid obs lam).point_id = pid ∧
      (IdObsLambda.make pid fid obs lam).frame_id = fid ∧
      (IdObsLambda.make pid fid obs lam).obs = obs ∧
      (IdObsLambda.make pid fid obs lam).lambda = lam) ∧
    (∀ O : ℕ, IdObsLambda.memberLambdaDim O = (2, 2)) ∧
    IdObsLambda.memberLambdaDim 3 ≠ IdObsLambda.ctorLambdaDim 3 := by
  refine ⟨fun O pid fid obs => ⟨rfl, rfl, rfl⟩,
    fun pid fid obs lam => ⟨rfl, rfl, rfl, rfl⟩, fun O => rfl, ?_⟩
  decide

/-! ## C5 -/

/-- C5: every numerical-differentiation default in the source (the frame and
point Jacobians of `AbstractPrediction` and both constraint Jacobians of
`AbstractConFun`) is the forward difference
`(f(add(·, h·e_i)) − f(·))/h` with the single step `h = 1e-12`. -/
theorem C5_numeric_jacobian_defaults :
    numh = 1 / 10 ^ 12 ∧
    (∀ (Frame : Type) (P F O : ℕ)
        (map : Frame → (Fin P → ℝ) → Fin O → ℝ)
        (add : Frame → (Fin F → ℝ) → Frame)
        (T : Frame) (x : Fin P → ℝ) (r : Fin O) (i : Fin F),
      numFrameJac map add T x r i
        = (map (add T (numh • (Pi.single i (1 : ℝ) : Fin F → ℝ))) x r - map T x r) / numh) ∧
    (∀ (Frame : Type) (P D O : ℕ)
        (map : Frame → (Fin P → ℝ) → Fin O → ℝ)
        (addPoint : (Fin P → ℝ) → (Fin D → ℝ) → Fin P → ℝ)
        (T : Frame) (x : Fin P → ℝ) (r : Fin O) (i : Fin D),
      numPointJac map addPoint T x r i
        = (map T (addPoint x (numh • (Pi.single i (1 : ℝ) : Fin D → ℝ))) r - map T x r) / numh) ∧
    (∀ (Trans : Type) (TransDoF : ℕ)
        (diff : Trans → Trans → Trans → Fin TransDoF → ℝ)
        (add : Trans → (Fin TransDoF → ℝ) → Trans)
        (T1 C T2 : Trans) (r i : Fin TransDoF),
      numDDiffDT1 diff add T1 C T2 r i
        = (diff (add T1 (numh • (Pi.single i (1 : ℝ) : Fin TransDoF → ℝ))) C T2 r
            - diff T1 C T2 r) / numh) ∧
    (∀ (Trans : Type) (TransDoF : ℕ)
        (diff : Trans → Trans → Trans → Fin TransDoF → ℝ)
        (add : Trans → (Fin TransDoF → ℝ) → Trans)
        (T1 C T2 : Trans) (r i : Fin TransDoF),
      numDDiffDT2 diff add T1 C T2 r i
        = (diff T1 C (add T2 (numh • (Pi.single i (1 : ℝ) : Fin TransDoF → ℝ))) r
            - diff T1 C T2 r) / numh) := by
  have hs : ∀ (n : ℕ) (i : Fin n),
      (numh • (Pi.single i (1 : ℝ) : Fin n → ℝ)) = Pi.single i numh := by
    intro n i
    funext j
    simp [Pi.single_apply]
  refine ⟨by norm_num [numh], ?_, ?_, ?_, ?_⟩ <;>
    intros <;> simp [numFrameJac, numPointJac, numDDiffDT1, numDDiffDT2, hs]

/-! ## C3 -/

/-- C3 (failing-input evaluation): `SE3ConFun::diff` takes the SE3 logarithm
of `D = (C*T1)*T2⁻¹` (line 720), but both analytic Jacobians
`d_diff_dT1`/`d_diff_dT2` evaluate the log-derivative `dlnT_dT` at
`D = T1*C*T2⁻¹` (lines 733 and 747).  At `T1` a unit translation along x,
`C` a 90° rotation about z and `T2 = I`, these two relative transforms
differ, so the analytic Jacobians are chained through the wrong point. -/
theorem C3_jacobian_log_argument_mismatch :
    SE3ConFun_dT1_relative T1ex Cex idSE3 ≠ SE3ConFun_diff_relative T1ex Cex idSE3 ∧
    SE3ConFun_dT2_relative T1ex Cex idSE3 ≠ SE3ConFun_diff_relative T1ex Cex idSE3 := by
  have key : (SE3ConFun_dT1_relative T1ex Cex idSE3).t 0
      ≠ (SE3ConFun_diff_relative T1ex Cex idSE3).t 0 := by
    norm_num [SE3ConFun_dT1_relative, SE3ConFun_diff_relative, T1ex, Cex, idSE3, Rz90,
      Matrix.mulVec, Matrix.dotProduct, Fin.sum_univ_three, Matrix.vecHead, Matrix.vecTail]
  have key2 : (SE3ConFun_dT2_relative T1ex Cex idSE3).t 0
      ≠ (SE3ConFun_diff_relative T1ex Cex idSE3).t 0 := key
  exact ⟨fun h => key (by rw [h]), fun h => key2 (by rw [h])⟩

/-! ## C1 -/

/-- C1 (failing-input evaluation): the round-trip
`add(T, ln(T2·T⁻¹)) = T2` fails.  `SE3Helper::ln` returns `[ω; ρ]` with the
rotational components first, while the exponential-map constructor
`TooN::SE3<>(delta)` used by `SE3ConFun::add` expects the translational
components first.  At `T = I` and `T2` the unit translation along z,
`ln(T2·T⁻¹) = (0,0,0,0,0,1)`, which `add` reads as a rotation about z with
zero translation, so the reconstructed transform has translation `0 ≠ T2.t`. -/
theorem C1_add_ln_roundtrip_fails :
    SE3ConFun_add idSE3 (SE3Helper.ln ((T2ex * idSE3⁻¹).R) ((T2ex * idSE3⁻¹).t))
      ≠ T2ex := by
  have harg : (T2ex * idSE3⁻¹) = T2ex := by
    refine RVSE3.eq_of_parts ?_ ?_ <;>
      simp [T2ex, idSE3, Matrix.mulVec_zero]
  rw [harg]
  have hln : SE3Helper.ln T2ex.R T2ex.t = Fin.append (0 : Vec3) ![0, 0, 1] := by
    rw [show T2ex.R = 1 from rfl, ln_one]
    rfl
  rw [hln]
  intro h
  have h2 := congrArg (fun X : RVSE3 => X.t 2) h
  have hrho : (fun i : Fin 3 => Fin.append (0 : Vec3) ![(0 : ℝ), 0, 1] (Fin.castAdd 3 i))
      = (0 : Vec3) := by
    funext i
    rw [Fin.append_left]
  simp only [SE3ConFun_add, se3FromVector, RVSE3.mul_t, hrho, Matrix.mulVec_zero] at h2
  simp [idSE3, T2ex, Matrix.mulVec_zero, Matrix.vecHead, Matrix.vecTail] at h2

/-! ## C2 -/

theorem vee_sub_transpose (R : Mat3) : vee (R - R.transpose) = deltaR R := by
  funext i
  fin_cases i <;> simp [vee, deltaR]

theorem trace_half (R : Mat3) : (Matrix.trace R - 1) / 2 = SE3Helper.dTrace R := by
  simp [Matrix.trace, SE3Helper.dTrace, Fin.sum_univ_three, Matrix.diag]
  ring

/-- C2: `SE3Helper::ln(R, t)` computes exactly the claimed two-branch
formula: `[ω; V⁻¹t]` with `d = (trace R − 1)/2`; for `d > 0.99999`,
`ω = 0.5·vee(R−Rᵀ)` and `V⁻¹ = I − ½Ω + (1/12)Ω²`; otherwise `θ = acos d`,
`ω = (θ/(2√(1−d²)))·vee(R−Rᵀ)` and
`V⁻¹ = I − ½Ω + ((1−θ/(2tan(θ/2)))/θ²)Ω²`, where `Ω = skew ω`. -/
theorem C2_ln_matches_spec_formula :
    ∀ (R : Mat3) (t : Vec3), SE3Helper.ln R t = ln_claimC2 R t := by
  intro R t
  simp only [SE3Helper.ln, ln_claimC2, trace_half, vee_sub_transpose, pow_two]

/-! ## C4 -/

theorem dTrace_Rnear : SE3Helper.dTrace Rnear = 62499 / 62501 := by
  norm_num [SE3Helper.dTrace, Rnear, Matrix.vecHead, Matrix.vecTail]

/-- C4 counterexample: `Rnear` is a genuine rotation matrix whose
`d = (trace−1)/2 = 62499/62501` satisfies `0.9999 < d ≤ 0.99999`; there
`dVinvt_dR` takes its near-identity branch (returning the limit value
`M3x9 0 0`) although `d > 0.99999` is false, refuting the claim that
`dVinvt_dR` switches at the same `0.99999` threshold as `ln`/`ln_so3`. -/
theorem C4_threshold_counterexample :
    Rnear.transpose * Rnear = 1 ∧
    SE3Helper.dVinvt_dR Tnear = SE3Helper.M3x9 0 0 ∧
    SE3Helper.dTrace Rnear > 0.9999 ∧
    ¬ SE3Helper.dTrace Rnear > 0.99999 := by
  refine ⟨?_, ?_, ?_, ?_⟩
  · ext i j
    fin_cases i <;> fin_cases j <;>
      norm_num [Rnear, Matrix.mul_apply, Matrix.transpose_apply, Fin.sum_univ_three,
        Matrix.one_apply, Matrix.vecHead, Matrix.vecTail, Fin.ext_iff]
  · have h : SE3Helper.dTrace Tnear.R > 0.9999 := by
      rw [show Tnear.R = Rnear from rfl, dTrace_Rnear]; norm_num
    simp [SE3Helper.dVinvt_dR, h]
  · rw [dTrace_Rnear]; norm_num
  · rw [dTrace_Rnear]; norm_num

/-- C4 (amended): the derivative routines use two-branch singularity
handling, but with different thresholds: `dlnR_dR` selects its near-identity
branch exactly when `d > 0.99999` (as `ln` and `ln_so3` do), while
`dVinvt_dR` selects its near-identity branch exactly when `d > 0.9999`. -/
theorem C4_branch_thresholds :
    ∀ T : RVSE3,
      (SE3Helper.dTrace T.R > 0.99999 →
        SE3Helper.dlnR_dR T.R = SE3Helper.M3x9 0 ((-0.5 : ℝ) • 1) ∧
        SE3Helper.dVinvt_dR T = SE3Helper.M3x9 0 0) ∧
      (SE3Helper.dTrace T.R > 0.9999 →
        SE3Helper.dVinvt_dR T = SE3Helper.M3x9 0 0) ∧
      (¬ SE3Helper.dTrace T.R > 0.99999 →
        SE3Helper.dlnR_dR T.R = SE3Helper.dlnR_dR_general T.R) ∧
      (¬ SE3Helper.dTrace T.R > 0.9999 →
        SE3Helper.dVinvt_dR T = SE3Helper.dVinvt_dR_general T) := by
  intro T
  refine ⟨fun h => ⟨?_, ?_⟩, fun h => ?_, fun h => ?_, fun h => ?_⟩
  · simp [SE3Helper.dlnR_dR, h]
  · have h9 : SE3Helper.dTrace T.R > 0.9999 := by linarith
    simp [SE3Helper.dVinvt_dR, h9]
  · simp [SE3Helper.dVinvt_dR, h]
  · simp [SE3Helper.dlnR_dR, h]
  · simp [SE3Helper.dVinvt_dR, h]

/-- C4 witness: at the identity transform `d = 1 > 0.99999`, so both
derivative routines take their near-identity branch. -/
theorem C4_branch_thresholds_witness :
    SE3Helper.dlnR_dR idSE3.R = SE3Helper.M3x9 0 ((-0.5 : ℝ) • 1) ∧
    SE3Helper.dVinvt_dR idSE3 = SE3Helper.M3x9 0 0 :=
  (C4_branch_thresholds idSE3).1
    (by rw [show idSE3.R = 1 from rfl, dTrace_one]; norm_num)

/-! ## C6 -/

theorem rel_transform_id (T1 T2 : RVSE3)
    (h1 : T1.R.transpose * T1.R = 1) (h2 : T2.R * T2.R.transpose = 1) :
    ((T2 * T1⁻¹) * T1) * T2⁻¹ = idSE3 := by
  have hCT1 : (T2 * T1⁻¹) * T1 = T2 := by
    refine RVSE3.eq_of_parts ?_ ?_
    · show T2.R * T1.R.transpose * T1.R = T2.R
      rw [Matrix.mul_assoc, h1, Matrix.mul_one]
    · show (T2.R * T1.R.transpose).mulVec T1.t
        + (T2.R.mulVec (-(T1.R.transpose.mulVec T1.t)) + T2.t) = T2.t
      rw [Matrix.mulVec_neg, Matrix.mulVec_mulVec]
      abel
  rw [hCT1]
  refine RVSE3.eq_of_parts ?_ ?_
  · show T2.R * T2.R.transpose = idSE3.R
    rw [h2]
    rfl
  · show T2.R.mulVec (-(T2.R.transpose.mulVec T2.t)) + T2.t = idSE3.t
    rw [Matrix.mulVec_neg, Matrix.mulVec_mulVec, h2, Matrix.one_mulVec]
    show -T2.t + T2.t = 0
    abel

/-- C6: for every pair of rigid transforms (orthogonal rotation parts), the
residual of each constraint model at the exactly-satisfying constraint
`C = T2·T1⁻¹` is the zero 6-vector: `SE3ConFun::diff` via the SE3 logarithm
of the identity (near-identity branch), and the two rotation/translation
split variants via `ln_so3` of the identity rotation and zero translation. -/
theorem C6_exact_constraint_zero_residual :
    ∀ T1 T2 : RVSE3, T1.R.transpose * T1.R = 1 → T2.R * T2.R.transpose = 1 →
      SE3ConFun_diff T1 (T2 * T1⁻¹) T2 = 0 ∧
      SO3xR3ConFun.diff T1 (T2 * T1⁻¹) T2 = 0 ∧
      SE3ConFunSO3xR3.diff T1 (T2 * T1⁻¹) T2 = 0 := by
  intro T1 T2 h1 h2
  have hD := rel_transform_id T1 T2 h1 h2
  refine ⟨?_, ?_, ?_⟩
  · show SE3Helper.ln (((T2 * T1⁻¹) * T1) * T2⁻¹).R (((T2 * T1⁻¹) * T1) * T2⁻¹).t = 0
    rw [hD]
    rw [show idSE3.R = 1 from rfl, show idSE3.t = 0 from rfl, ln_one]
    exact append_zero_zero
  · show SE3Helper.ln_so3xR3 (((T2 * T1⁻¹) * T1) * T2⁻¹) = 0
    rw [hD]
    show Fin.append (SE3Helper.ln_so3 (1 : Mat3)) (0 : Vec3) = 0
    rw [ln_so3_one]
    exact append_zero_zero
  · show SE3Helper.ln_so3xR3 (((T2 * T1⁻¹) * T1) * T2⁻¹) = 0
    rw [hD]
    show Fin.append (SE3Helper.ln_so3 (1 : Mat3)) (0 : Vec3) = 0
    rw [ln_so3_one]
    exact append_zero_zero

/-- C6 witness: concrete transforms with a 90° rotation and nonzero
translations satisfy the orthogonality hypotheses, and the residuals vanish. -/
theorem C6_exact_constraint_zero_residual_witness :
    SE3ConFun_diff T1w (T2w * T1w⁻¹) T2w = 0 ∧
    SO3xR3ConFun.diff T1w (T2w * T1w⁻¹) T2w = 0 ∧
    SE3ConFunSO3xR3.diff T1w (T2w * T1w⁻¹) T2w = 0 :=
  C6_exact_constraint_zero_residual T1w T2w
    (by
      ext i j
      fin_cases i <;> fin_cases j <;>
        norm_num [T1w, Rz90, Matrix.mul_apply, Matrix.transpose_apply,
          Fin.sum_univ_three, Matrix.one_apply, Matrix.vecHead, Matrix.vecTail, Fin.ext_iff])
    (by simp [T2w])

/-! ## C7 -/

/-- C7: the two rotation/translation-split constraint variants have
extensionally equal residuals — both compute `ln_so3xR3((C·T1)·T2⁻¹)`, the
rotation logarithm in components 0–2 and the raw relative translation in
components 3–5; they differ only in `add` (split rotation-left-multiply /
translation-add versus the full exponential-map update `SE3(δ)·T`), and
neither overrides the numerical-fallback Jacobians. -/
theorem C7_split_variants_agree :
    ∀ (T1 C T2 T : RVSE3) (delta : Vec6),
      SO3xR3ConFun.diff T1 C T2 = SE3ConFunSO3xR3.diff T1 C T2 ∧
      SO3xR3ConFun.diff T1 C T2 = SE3Helper.ln_so3xR3 ((C * T1) * T2⁻¹) ∧
      (∀ i : Fin 3,
        SO3xR3ConFun.diff T1 C T2 (Fin.castAdd 3 i)
          = SE3Helper.ln_so3 ((C * T1) * T2⁻¹).R i ∧
        SO3xR3ConFun.diff T1 C T2 (Fin.natAdd 3 i)
          = ((C * T1) * T2⁻¹).t i) ∧
      SO3xR3ConFun.add T delta =
        ⟨so3exp (fun i => delta (Fin.natAdd 3 i)) * T.R,
         T.t + fun i => delta (Fin.castAdd 3 i)⟩ ∧
      SE3ConFunSO3xR3.add T delta = se3FromVector delta * T ∧
      SO3xR3ConFun.d_diff_dT1 = numDDiffDT1 SO3xR3ConFun.diff SO3xR3ConFun.add ∧
      SO3xR3ConFun.d_diff_dT2 = numDDiffDT2 SO3xR3ConFun.diff SO3xR3ConFun.add ∧
      SE3ConFunSO3xR3.d_diff_dT1
        = numDDiffDT1 SE3ConFunSO3xR3.diff SE3ConFunSO3xR3.add ∧
      SE3ConFunSO3xR3.d_diff_dT2
        = numDDiffDT2 SE3ConFunSO3xR3.diff SE3ConFunSO3xR3.add := by
  intro T1 C T2 T delta
  refine ⟨rfl, rfl, fun i => ⟨?_, ?_⟩, rfl, rfl, rfl, rfl, rfl, rfl⟩
  · show Fin.append (SE3Helper.ln_so3 ((C * T1) * T2⁻¹).R) ((C * T1) * T2⁻¹).t
      (Fin.castAdd 3 i) = SE3Helper.ln_so3 ((C * T1) * T2⁻¹).R i
    exact Fin.append_left _ _ _
  · show Fin.append (SE3Helper.ln_so3 ((C * T1) * T2⁻¹).R) ((C * T1) * T2⁻¹).t
      (Fin.natAdd 3 i) = ((C * T1) * T2⁻¹).t i
    exact Fin.append_right _ _ _

/-! ## C8 -/

theorem sinc_abs (s : ℝ) : Real.sin |s| / |s| * s = Real.sin s := by
  rcases eq_or_ne s 0 with rfl | hs
  · simp
  · rcases abs_cases s with ⟨h1, h2⟩ | ⟨h1, h2⟩
    · rw [h1, div_mul_cancel₀ _ hs]
    · rw [h1, Real.sin_neg]
      field_simp

theorem cosc_abs (s : ℝ) : (1 - Real.cos |s|) / (|s| * |s|) * (s * s) = 1 - Real.cos s := by
  rcases eq_or_ne s 0 with rfl | hs
  · simp
  · rw [Real.cos_abs, abs_mul_abs_self, div_mul_cancel₀]
    exact mul_ne_zero hs hs

theorem hasDerivAt_trig (a b c : ℝ) :
    HasDerivAt (fun s => a * Real.cos s + b * Real.sin s + c) b 0 := by
  have h := (((Real.hasDerivAt_cos 0).const_mul a).add
    ((Real.hasDerivAt_sin 0).const_mul b)).add_const c
  simpa using h

theorem so3exp_zero : so3exp 0 = 1 := by
  simp [so3exp, skew_zero]

theorem se3V_zero : se3V 0 = 1 := by
  simp [se3V, skew_zero]

theorem sinc_sqrt (s : ℝ) :
    Real.sin (Real.sqrt (s * s)) / Real.sqrt (s * s) * s = Real.sin s := by
  rw [Real.sqrt_mul_self_eq_abs]
  exact sinc_abs s

theorem cosc_sqrt (s : ℝ) :
    1 + -((1 - Real.cos (Real.sqrt (s * s))) / (Real.sqrt (s * s) * Real.sqrt (s * s))
      * (s * s)) = Real.cos s := by
  rw [Real.sqrt_mul_self_eq_abs]
  have h := cosc_abs s
  linarith

theorem so3exp_axis0 (s : ℝ) :
    so3exp ![s, 0, 0]
      = !![1, 0, 0; 0, Real.cos s, -Real.sin s; 0, Real.sin s, Real.cos s] := by
  ext i j
  fin_cases i <;> fin_cases j <;>
    simp [so3exp, skew, Matrix.mul_apply, Fin.sum_univ_three,
      Matrix.vecHead, Matrix.vecTail, Matrix.one_apply, sinc_sqrt, cosc_sqrt]

theorem so3exp_axis1 (s : ℝ) :
    so3exp ![0, s, 0]
      = !![Real.cos s, 0, Real.sin s; 0, 1, 0; -Real.sin s, 0, Real.cos s] := by
  ext i j
  fin_cases i <;> fin_cases j <;>
    simp [so3exp, skew, Matrix.mul_apply, Fin.sum_univ_three,
      Matrix.vecHead, Matrix.vecTail, Matrix.one_apply, sinc_sqrt, cosc_sqrt]

theorem so3exp_axis2 (s : ℝ) :
    so3exp ![0, 0, s]
      = !![Real.cos s, -Real.sin s, 0; Real.sin s, Real.cos s, 0; 0, 0, 1] := by
  ext i j
  fin_cases i <;> fin_cases j <;>
    simp [so3exp, skew, Matrix.mul_apply, Fin.sum_univ_three,
      Matrix.vecHead, Matrix.vecTail, Matrix.one_apply, sinc_sqrt, cosc_sqrt]

theorem sf_trans0 (s : ℝ) :
    se3FromVector (Pi.single (0 : Fin 6) s) = ⟨1, Pi.single (0 : Fin 3) s⟩ := by
  have hw : (fun i : Fin 3 => (Pi.single (0 : Fin 6) s : Vec6) (Fin.natAdd 3 i))
      = (0 : Vec3) := by
    funext i
    fin_cases i <;> simp +decide [Pi.single_apply]
  have hrho : (fun i : Fin 3 => (Pi.single (0 : Fin 6) s : Vec6) (Fin.castAdd 3 i))
      = (Pi.single (0 : Fin 3) s : Vec3) := by
    funext i
    fin_cases i <;> simp +decide [Pi.single_apply]
  simp only [se3FromVector]
  rw [hw, hrho, so3exp_zero, se3V_zero, Matrix.one_mulVec]

theorem sf_trans1 (s : ℝ) :
    se3FromVector (Pi.single (1 : Fin 6) s) = ⟨1, Pi.single (1 : Fin 3) s⟩ := by
  have hw : (fun i : Fin 3 => (Pi.single (1 : Fin 6) s : Vec6) (Fin.natAdd 3 i))
      = (0 : Vec3) := by
    funext i
    fin_cases i <;> simp +decide [Pi.single_apply]
  have hrho : (fun i : Fin 3 => (Pi.single (1 : Fin 6) s : Vec6) (Fin.castAdd 3 i))
      = (Pi.single (1 : Fin 3) s : Vec3) := by
    funext i
    fin_cases i <;> simp +decide [Pi.single_apply]
  simp only [se3FromVector]
  rw [hw, hrho, so3exp_zero, se3V_zero, Matrix.one_mulVec]

theorem sf_trans2 (s : ℝ) :
    se3FromVector (Pi.single (2 : Fin 6) s) = ⟨1, Pi.single (2 : Fin 3) s⟩ := by
  have hw : (fun i : Fin 3 => (Pi.single (2 : Fin 6) s : Vec6) (Fin.natAdd 3 i))
      = (0 : Vec3) := by
    funext i
    fin_cases i <;> simp +decide [Pi.single_apply]
  have hrho : (fun i : Fin 3 => (Pi.single (2 : Fin 6) s : Vec6) (Fin.castAdd 3 i))
      = (Pi.single (2 : Fin 3) s : Vec3) := by
    funext i
    fin_cases i <;> simp +decide [Pi.single_apply]
  simp only [se3FromVector]
  rw [hw, hrho, so3exp_zero, se3V_zero, Matrix.one_mulVec]

theorem sf_rot0 (s : ℝ) :
    se3FromVector (Pi.single (3 : Fin 6) s) = ⟨so3exp ![s, 0, 0], 0⟩ := by
  have hw : (fun i : Fin 3 => (Pi.single (3 : Fin 6) s : Vec6) (Fin.natAdd 3 i))
      = ![s, 0, 0] := by
    funext i
    fin_cases i <;> simp +decide [Pi.single_apply]
  have hrho : (fun i : Fin 3 => (Pi.single (3 : Fin 6) s : Vec6) (Fin.castAdd 3 i))
      = (0 : Vec3) := by
    funext i
    fin_cases i <;> simp +decide [Pi.single_apply]
  simp only [se3FromVector]
  rw [hw, hrho, Matrix.mulVec_zero]

theorem sf_rot1 (s : ℝ) :
    se3FromVector (Pi.single (4 : Fin 6) s) = ⟨so3exp ![0, s, 0], 0⟩ := by
  have hw : (fun i : Fin 3 => (Pi.single (4 : Fin 6) s : Vec6) (Fin.natAdd 3 i))
      = ![0, s, 0] := by
    funext i
    fin_cases i <;> simp +decide [Pi.single_apply]
  have hrho : (fun i : Fin 3 => (Pi.single (4 : Fin 6) s : Vec6) (Fin.castAdd 3 i))
      = (0 : Vec3) := by
    funext i
    fin_cases i <;> simp +decide [Pi.single_apply]
  simp only [se3FromVector]
  rw [hw, hrho, Matrix.mulVec_zero]

theorem sf_rot2 (s : ℝ) :
    se3FromVector (Pi.single (5 : Fin 6) s) = ⟨so3exp ![0, 0, s], 0⟩ := by
  have hw : (fun i : Fin 3 => (Pi.single (5 : Fin 6) s : Vec6) (Fin.natAdd 3 i))
      = ![0, 0, s] := by
    funext i
    fin_cases i <;> simp +decide [Pi.single_apply]
  have hrho : (fun i : Fin 3 => (Pi.single (5 : Fin 6) s : Vec6) (Fin.castAdd 3 i))
      = (0 : Vec3) := by
    funext i
    fin_cases i <;> simp +decide [Pi.single_apply]
  simp only [se3FromVector]
  rw [hw, hrho, Matrix.mulVec_zero]

theorem d_trans0_R (T : RVSE3) (a b : Fin 3) :
    HasDerivAt (fun s => (se3FromVector (Pi.single (0 : Fin 6) s) * T).R a b) 0 0 := by
  have hf : (fun s => (se3FromVector (Pi.single (0 : Fin 6) s) * T).R a b)
      = fun s => T.R a b := by
    funext s
    simp only [sf_trans0, RVSE3.mul_R, Matrix.one_mul]
  rw [hf]
  exact hasDerivAt_const _ _

theorem d_trans0_t (T : RVSE3) (a : Fin 3) :
    HasDerivAt (fun s => (se3FromVector (Pi.single (0 : Fin 6) s) * T).t a)
      (if (0 : Fin 3) = a then 1 else 0) 0 := by
  have hf : (fun s => (se3FromVector (Pi.single (0 : Fin 6) s) * T).t a)
      = fun s => (if (0 : Fin 3) = a then (1 : ℝ) else 0) * s + T.t a := by
    funext s
    simp only [sf_trans0, RVSE3.mul_t, Matrix.one_mulVec, Pi.add_apply]
    rcases eq_or_ne (0 : Fin 3) a with h | h
    · subst h
      simp [Pi.single_eq_same]
      ring
    · simp [Pi.single_eq_of_ne (Ne.symm h), h]
  rw [hf]
  simpa using ((hasDerivAt_id 0).const_mul
    (if (0 : Fin 3) = a then (1 : ℝ) else 0)).add_const (T.t a)

theorem d_trans1_R (T : RVSE3) (a b : Fin 3) :
    HasDerivAt (fun s => (se3FromVector (Pi.single (1 : Fin 6) s) * T).R a b) 0 0 := by
  have hf : (fun s => (se3FromVector (Pi.single (1 : Fin 6) s) * T).R a b)
      = fun s => T.R a b := by
    funext s
    simp only [sf_trans1, RVSE3.mul_R, Matrix.one_mul]
  rw [hf]
  exact hasDerivAt_const _ _

theorem d_trans1_t (T : RVSE3) (a : Fin 3) :
    HasDerivAt (fun s => (se3FromVector (Pi.single (1 : Fin 6) s) * T).t a)
      (if (1 : Fin 3) = a then 1 else 0) 0 := by
  have hf : (fun s => (se3FromVector (Pi.single (1 : Fin 6) s) * T).t a)
      = fun s => (if (1 : Fin 3) = a then (1 : ℝ) else 0) * s + T.t a := by
    funext s
    simp only [sf_trans1, RVSE3.mul_t, Matrix.one_mulVec, Pi.add_apply]
    rcases eq_or_ne (1 : Fin 3) a with h | h
    · subst h
      simp [Pi.single_eq_same]
      ring
    · simp [Pi.single_eq_of_ne (Ne.symm h), h]
  rw [hf]
  simpa using ((hasDerivAt_id 0).const_mul
    (if (1 : Fin 3) = a then (1 : ℝ) else 0)).add_const (T.t a)

theorem d_trans2_R (T : RVSE3) (a b : Fin 3) :
    HasDerivAt (fun s => (se3FromVector (Pi.single (2 : Fin 6) s) * T).R a b) 0 0 := by
  have hf : (fun s => (se3FromVector (Pi.single (2 : Fin 6) s) * T).R a b)
      = fun s => T.R a b := by
    funext s
    simp only [sf_trans2, RVSE3.mul_R, Matrix.one_mul]
  rw [hf]
  exact hasDerivAt_const _ _

theorem d_trans2_t (T : RVSE3) (a : Fin 3) :
    HasDerivAt (fun s => (se3FromVector (Pi.single (2 : Fin 6) s) * T).t a)
      (if (2 : Fin 3) = a then 1 else 0) 0 := by
  have hf : (fun s => (se3FromVector (Pi.single (2 : Fin 6) s) * T).t a)
      = fun s => (if (2 : Fin 3) = a then (1 : ℝ) else 0) * s + T.t a := by
    funext s
    simp only [sf_trans2, RVSE3.mul_t, Matrix.one_mulVec, Pi.add_apply]
    rcases eq_or_ne (2 : Fin 3) a with h | h
    · subst h
      simp [Pi.single_eq_same]
      ring
    · simp [Pi.single_eq_of_ne (Ne.symm h), h]
  rw [hf]
  simpa using ((hasDerivAt_id 0).const_mul
    (if (2 : Fin 3) = a then (1 : ℝ) else 0)).add_const (T.t a)

theorem d_rot0_R0 (T : RVSE3) (b : Fin 3) :
    HasDerivAt (fun s => (se3FromVector (Pi.single (3 : Fin 6) s) * T).R 0 b)
      (-(0 : ℝ)) 0 := by
  have hf : (fun s => (se3FromVector (Pi.single (3 : Fin 6) s) * T).R 0 b)
      = fun s => 0 * Real.cos s + -(0 : ℝ) * Real.sin s + T.R 0 b := by
    funext s
    simp only [sf_rot0, RVSE3.mul_R, so3exp_axis0]
    simp [Matrix.mul_apply, Fin.sum_univ_three, Matrix.vecHead, Matrix.vecTail]
  rw [hf]
  exact hasDerivAt_trig _ _ _

theorem d_rot0_t0 (T : RVSE3) :
    HasDerivAt (fun s => (se3FromVector (Pi.single (3 : Fin 6) s) * T).t 0)
      (-(0 : ℝ)) 0 := by
  have hf : (fun s => (se3FromVector (Pi.single (3 : Fin 6) s) * T).t 0)
      = fun s => 0 * Real.cos s + -(0 : ℝ) * Real.sin s + T.t 0 := by
    funext s
    simp only [sf_rot0, RVSE3.mul_t, so3exp_axis0]
    simp [Matrix.mulVec, Matrix.dotProduct, Fin.sum_univ_three, Matrix.vecHead,
      Matrix.vecTail]
  rw [hf]
  exact hasDerivAt_trig _ _ _

theorem d_rot0_R1 (T : RVSE3) (b : Fin 3) :
    HasDerivAt (fun s => (se3FromVector (Pi.single (3 : Fin 6) s) * T).R 1 b)
      (-(T.R 2 b)) 0 := by
  have hf : (fun s => (se3FromVector (Pi.single (3 : Fin 6) s) * T).R 1 b)
      = fun s => T.R 1 b * Real.cos s + -(T.R 2 b) * Real.sin s + 0 := by
    funext s
    simp only [sf_rot0, RVSE3.mul_R, so3exp_axis0]
    simp [Matrix.mul_apply, Fin.sum_univ_three, Matrix.vecHead, Matrix.vecTail]
    ring
  rw [hf]
  exact hasDerivAt_trig _ _ _

theorem d_rot0_t1 (T : RVSE3) :
    HasDerivAt (fun s => (se3FromVector (Pi.single (3 : Fin 6) s) * T).t 1)
      (-(T.t 2)) 0 := by
  have hf : (fun s => (se3FromVector (Pi.single (3 : Fin 6) s) * T).t 1)
      = fun s => T.t 1 * Real.cos s + -(T.t 2) * Real.sin s + 0 := by
    funext s
    simp only [sf_rot0, RVSE3.mul_t, so3exp_axis0]
    simp [Matrix.mulVec, Matrix.dotProduct, Fin.sum_univ_three, Matrix.vecHead,
      Matrix.vecTail]
    ring
  rw [hf]
  exact hasDerivAt_trig _ _ _

theorem d_rot0_R2 (T : RVSE3) (b : Fin 3) :
    HasDerivAt (fun s => (se3FromVector (Pi.single (3 : Fin 6) s) * T).R 2 b)
      (-(-(T.R 1 b))) 0 := by
  have hf : (fun s => (se3FromVector (Pi.single (3 : Fin 6) s) * T).R 2 b)
      = fun s => T.R 2 b * Real.cos s + -(-(T.R 1 b)) * Real.sin s + 0 := by
    funext s
    simp only [sf_rot0, RVSE3.mul_R, so3exp_axis0]
    simp [Matrix.mul_apply, Fin.sum_univ_three, Matrix.vecHead, Matrix.vecTail]
    ring
  rw [hf]
  exact hasDerivAt_trig _ _ _

theorem d_rot0_t2 (T : RVSE3) :
    HasDerivAt (fun s => (se3FromVector (Pi.single (3 : Fin 6) s) * T).t 2)
      (-(-(T.t 1))) 0 := by
  have hf : (fun s => (se3FromVector (Pi.single (3 : Fin 6) s) * T).t 2)
      = fun s => T.t 2 * Real.cos s + -(-(T.t 1)) * Real.sin s + 0 := by
    funext s
    simp only [sf_rot0, RVSE3.mul_t, so3exp_axis0]
    simp [Matrix.mulVec, Matrix.dotProduct, Fin.sum_univ_three, Matrix.vecHead,
      Matrix.vecTail]
    ring
  rw [hf]
  exact hasDerivAt_trig _ _ _

theorem d_rot1_R0 (T : RVSE3) (b : Fin 3) :
    HasDerivAt (fun s => (se3FromVector (Pi.single (4 : Fin 6) s) * T).R 0 b)
      (-(-(T.R 2 b))) 0 := by
  have hf : (fun s => (se3FromVector (Pi.single (4 : Fin 6) s) * T).R 0 b)
      = fun s => T.R 0 b * Real.cos s + -(-(T.R 2 b)) * Real.sin s + 0 := by
    funext s
    simp only [sf_rot1, RVSE3.mul_R, so3exp_axis1]
    simp [Matrix.mul_apply, Fin.sum_univ_three, Matrix.vecHead, Matrix.vecTail]
    ring
  rw [hf]
  exact hasDerivAt_trig _ _ _

theorem d_rot1_t0 (T : RVSE3) :
    HasDerivAt (fun s => (se3FromVector (Pi.single (4 : Fin 6) s) * T).t 0)
      (-(-(T.t 2))) 0 := by
  have hf : (fun s => (se3FromVector (Pi.single (4 : Fin 6) s) * T).t 0)
      = fun s => T.t 0 * Real.cos s + -(-(T.t 2)) * Real.sin s + 0 := by
    funext s
    simp only [sf_rot1, RVSE3.mul_t, so3exp_axis1]
    simp [Matrix.mulVec, Matrix.dotProduct, Fin.sum_univ_three, Matrix.vecHead,
      Matrix.vecTail]
    ring
  rw [hf]
  exact hasDerivAt_trig _ _ _

theorem d_rot1_R1 (T : RVSE3) (b : Fin 3) :
    HasDerivAt (fun s => (se3FromVector (Pi.single (4 : Fin 6) s) * T).R 1 b)
      (-(0 : ℝ)) 0 := by
  have hf : (fun s => (se3FromVector (Pi.single (4 : Fin 6) s) * T).R 1 b)
      = fun s => 0 * Real.cos s + -(0 : ℝ) * Real.sin s + T.R 1 b := by
    funext s
    simp only [sf_rot1, RVSE3.mul_R, so3exp_axis1]
    simp [Matrix.mul_apply, Fin.sum_univ_three, Matrix.vecHead, Matrix.vecTail]
  rw [hf]
  exact hasDerivAt_trig _ _ _

theorem d_rot1_t1 (T : RVSE3) :
    HasDerivAt (fun s => (se3FromVector (Pi.single (4 : Fin 6) s) * T).t 1)
      (-(0 : ℝ)) 0 := by
  have hf : (fun s => (se3FromVector (Pi.single (4 : Fin 6) s) * T).t 1)
      = fun s => 0 * Real.cos s + -(0 : ℝ) * Real.sin s + T.t 1 := by
    funext s
    simp only [sf_rot1, RVSE3.mul_t, so3exp_axis1]
    simp [Matrix.mulVec, Matrix.dotProduct, Fin.sum_univ_three, Matrix.vecHead,
      Matrix.vecTail]
  rw [hf]
  exact hasDerivAt_trig _ _ _

theorem d_rot1_R2 (T : RVSE3) (b : Fin 3) :
    HasDerivAt (fun s => (se3FromVector (Pi.single (4 : Fin 6) s) * T).R 2 b)
      (-(T.R 0 b)) 0 := by
  have hf : (fun s => (se3FromVector (Pi.single (4 : Fin 6) s) * T).R 2 b)
      = fun s => T.R 2 b * Real.cos s + -(T.R 0 b) * Real.sin s + 0 := by
    funext s
    simp only [sf_rot1, RVSE3.mul_R, so3exp_axis1]
    simp [Matrix.mul_apply, Fin.sum_univ_three, Matrix.vecHead, Matrix.vecTail]
    ring
  rw [hf]
  exact hasDerivAt_trig _ _ _

theorem d_rot1_t2 (T : RVSE3) :
    HasDerivAt (fun s => (se3FromVector (Pi.single (4 : Fin 6) s) * T).t 2)
      (-(T.t 0)) 0 := by
  have hf : (fun s => (se3FromVector (Pi.single (4 : Fin 6) s) * T).t 2)
      = fun s => T.t 2 * Real.cos s + -(T.t 0) * Real.sin s + 0 := by
    funext s
    simp only [sf_rot1, RVSE3.mul_t, so3exp_axis1]
    simp [Matrix.mulVec, Matrix.dotProduct, Fin.sum_univ_three, Matrix.vecHead,
      Matrix.vecTail]
    ring
  rw [hf]
  exact hasDerivAt_trig _ _ _

theorem d_rot2_R0 (T : RVSE3) (b : Fin 3) :
    HasDerivAt (fun s => (se3FromVector (Pi.single (5 : Fin 6) s) * T).R 0 b)
      (-(T.R 1 b)) 0 := by
  have hf : (fun s => (se3FromVector (Pi.single (5 : Fin 6) s) * T).R 0 b)
      = fun s => T.R 0 b * Real.cos s + -(T.R 1 b) * Real.sin s + 0 := by
    funext s
    simp only [sf_rot2, RVSE3.mul_R, so3exp_axis2]
    simp [Matrix.mul_apply, Fin.sum_univ_three, Matrix.vecHead, Matrix.vecTail]
    ring
  rw [hf]
  exact hasDerivAt_trig _ _ _

theorem d_rot2_t0 (T : RVSE3) :
    HasDerivAt (fun s => (se3FromVector (Pi.single (5 : Fin 6) s) * T).t 0)
      (-(T.t 1)) 0 := by
  have hf : (fun s => (se3FromVector (Pi.single (5 : Fin 6) s) * T).t 0)
      = fun s => T.t 0 * Real.cos s + -(T.t 1) * Real.sin s + 0 := by
    funext s
    simp only [sf_rot2, RVSE3.mul_t, so3exp_axis2]
    simp [Matrix.mulVec, Matrix.dotProduct, Fin.sum_univ_three, Matrix.vecHead,
      Matrix.vecTail]
    ring
  rw [hf]
  exact hasDerivAt_trig _ _ _

theorem d_rot2_R1 (T : RVSE3) (b : Fin 3) :
    HasDerivAt (fun s => (se3FromVector (Pi.single (5 : Fin 6) s) * T).R 1 b)
      (-(-(T.R 0 b))) 0 := by
  have hf : (fun s => (se3FromVector (Pi.single (5 : Fin 6) s) * T).R 1 b)
      = fun s => T.R 1 b * Real.cos s + -(-(T.R 0 b)) * Real.sin s + 0 := by
    funext s
    simp only [sf_rot2, RVSE3.mul_R, so3exp_axis2]
    simp [Matrix.mul_apply, Fin.sum_univ_three, Matrix.vecHead, Matrix.vecTail]
    ring
  rw [hf]
  exact hasDerivAt_trig _ _ _

theorem d_rot2_t1 (T : RVSE3) :
    HasDerivAt (fun s => (se3FromVector (Pi.single (5 : Fin 6) s) * T).t 1)
      (-(-(T.t 0))) 0 := by
  have hf : (fun s => (se3FromVector (Pi.single (5 : Fin 6) s) * T).t 1)
      = fun s => T.t 1 * Real.cos s + -(-(T.t 0)) * Real.sin s + 0 := by
    funext s
    simp only [sf_rot2, RVSE3.mul_t, so3exp_axis2]
    simp [Matrix.mulVec, Matrix.dotProduct, Fin.sum_univ_three, Matrix.vecHead,
      Matrix.vecTail]
    ring
  rw [hf]
  exact hasDerivAt_trig _ _ _

theorem d_rot2_R2 (T : RVSE3) (b : Fin 3) :
    HasDerivAt (fun s => (se3FromVector (Pi.single (5 : Fin 6) s) * T).R 2 b)
      (-(0 : ℝ)) 0 := by
  have hf : (fun s => (se3FromVector (Pi.single (5 : Fin 6) s) * T).R 2 b)
      = fun s => 0 * Real.cos s + -(0 : ℝ) * Real.sin s + T.R 2 b := by
    funext s
    simp only [sf_rot2, RVSE3.mul_R, so3exp_axis2]
    simp [Matrix.mul_apply, Fin.sum_univ_three, Matrix.vecHead, Matrix.vecTail]
  rw [hf]
  exact hasDerivAt_trig _ _ _

theorem d_rot2_t2 (T : RVSE3) :
    HasDerivAt (fun s => (se3FromVector (Pi.single (5 : Fin 6) s) * T).t 2)
      (-(0 : ℝ)) 0 := by
  have hf : (fun s => (se3FromVector (Pi.single (5 : Fin 6) s) * T).t 2)
      = fun s => 0 * Real.cos s + -(0 : ℝ) * Real.sin s + T.t 2 := by
    funext s
    simp only [sf_rot2, RVSE3.mul_t, so3exp_axis2]
    simp [Matrix.mulVec, Matrix.dotProduct, Fin.sum_univ_three, Matrix.vecHead,
      Matrix.vecTail]
  rw [hf]
  exact hasDerivAt_trig _ _ _

/-- C8: `SE3Helper::dexp_x_T_ddelta T` is the 12×6 Jacobian of `exp(δ)·T`
(flattened as the three columns of `R` followed by `t`) with respect to `δ`
at `δ = 0`: along every perturbation axis `δ = s·e_i` (translation components
in columns 0–2, rotation components in columns 3–5) the derivative of each
flattened component at `s = 0` is the corresponding matrix entry — the
`[0 | −skew(r_j)]` row blocks for the columns of `R` and the
`[I | −skew(t)]` block for the translation. -/
theorem C8_dexp_x_T_ddelta_is_jacobian :
    ∀ (T : RVSE3) (i : Fin 6) (r : Fin 12),
      HasDerivAt
        (fun s => SE3Helper.flattenSE3 (se3FromVector (Pi.single i s) * T) r)
        (SE3Helper.dexp_x_T_ddelta T r i) 0 := by
  intro T i r
  fin_cases i <;> fin_cases r
  · exact d_trans0_R T 0 0
  · exact d_trans0_R T 1 0
  · exact d_trans0_R T 2 0
  · exact d_trans0_R T 0 1
  · exact d_trans0_R T 1 1
  · exact d_trans0_R T 2 1
  · exact d_trans0_R T 0 2
  · exact d_trans0_R T 1 2
  · exact d_trans0_R T 2 2
  · exact d_trans0_t T 0
  · exact d_trans0_t T 1
  · exact d_trans0_t T 2
  · exact d_trans1_R T 0 0
  · exact d_trans1_R T 1 0
  · exact d_trans1_R T 2 0
  · exact d_trans1_R T 0 1
  · exact d_trans1_R T 1 1
  · exact d_trans1_R T 2 1
  · exact d_trans1_R T 0 2
  · exact d_trans1_R T 1 2
  · exact d_trans1_R T 2 2
  · exact d_trans1_t T 0
  · exact d_trans1_t T 1
  · exact d_trans1_t T 2
  · exact d_trans2_R T 0 0
  · exact d_trans2_R T 1 0
  · exact d_trans2_R T 2 0
  · exact d_trans2_R T 0 1
  · exact d_trans2_R T 1 1
  · exact d_trans2_R T 2 1
  · exact d_trans2_R T 0 2
  · exact d_trans2_R T 1 2
  · exact d_trans2_R T 2 2
  · exact d_trans2_t T 0
  · exact d_trans2_t T 1
  · exact d_trans2_t T 2
  · exact d_rot0_R0 T 0
  · exact d_rot0_R1 T 0
  · exact d_rot0_R2 T 0
  · exact d_rot0_R0 T 1
  · exact d_rot0_R1 T 1
  · exact d_rot0_R2 T 1
  · exact d_rot0_R0 T 2
  · exact d_rot0_R1 T 2
  · exact d_rot0_R2 T 2
  · exact d_rot0_t0 T
  · exact d_rot0_t1 T
  · exact d_rot0_t2 T
  · exact d_rot1_R0 T 0
  · exact d_rot1_R1 T 0
  · exact d_rot1_R2 T 0
  · exact d_rot1_R0 T 1
  · exact d_rot1_R1 T 1
  · exact d_rot1_R2 T 1
  · exact d_rot1_R0 T 2
  · exact d_rot1_R1 T 2
  · exact d_rot1_R2 T 2
  · exact d_rot1_t0 T
  · exact d_rot1_t1 T
  · exact d_rot1_t2 T
  · exact d_rot2_R0 T 0
  · exact d_rot2_R1 T 0
  · exact d_rot2_R2 T 0
  · exact d_rot2_R0 T 1
  · exact d_rot2_R1 T 1
  · exact d_rot2_R2 T 1
  · exact d_rot2_R0 T 2
  · exact d_rot2_R1 T 2
  · exact d_rot2_R2 T 2
  · exact d_rot2_t0 T
  · exact d_rot2_t1 T
  · exact d_rot2_t2 T

/-! ## C9 -/

theorem hasDerivAt_div_affine (A B C D x : ℝ) (h : C * x + D ≠ 0) :
    HasDerivAt (fun s => (A * s + B) / (C * s + D))
      ((A * (C * x + D) - (A * x + B) * C) / (C * x + D) ^ 2) x := by
  have h1 : HasDerivAt (fun s : ℝ => A * s + B) A x := by
    simpa using ((hasDerivAt_id x).const_mul A).add_const B
  have h2 : HasDerivAt (fun s : ℝ => C * s + D) C x := by
    simpa using ((hasDerivAt_id x).const_mul C).add_const D
  exact h1.div h2 h

theorem hasDerivAt_div_inv (A B C D x : ℝ) (hx : x ≠ 0) (h : C * x⁻¹ + D ≠ 0) :
    HasDerivAt (fun s => (A * s⁻¹ + B) / (C * s⁻¹ + D))
      ((A * -(x ^ 2)⁻¹ * (C * x⁻¹ + D) - (A * x⁻¹ + B) * (C * -(x ^ 2)⁻¹))
        / (C * x⁻¹ + D) ^ 2) x := by
  have h1 : HasDerivAt (fun s : ℝ => A * s⁻¹ + B) (A * -(x ^ 2)⁻¹) x :=
    ((hasDerivAt_inv hx).const_mul A).add_const B
  have h2 : HasDerivAt (fun s : ℝ => C * s⁻¹ + D) (C * -(x ^ 2)⁻¹) x :=
    ((hasDerivAt_inv hx).const_mul C).add_const D
  exact h1.div h2 h

set_option maxHeartbeats 1000000 in
/-- C9: for `q ≠ 0` and positive transformed depth, `SE3UVQ::map` is the
camera applied to the projection of the rigidly transformed reconstruction
`x = (u,v,1)/q`; `SE3UVQ::pointJac` is the camera Jacobian times
`J_x = 1/(z·q)·[[1,0,−x/z],[0,1,−y/z]]·M` (with `M` the first two rotation
columns and the translation), and this `J_x` is the true derivative of the
reconstruct-transform-project map with respect to each of `u`, `v`, `q`. -/
theorem C9_uvq_map_and_pointJac :
    ∀ (cam : LinCam) (T : RVSE3) (uvq : Vec3),
      uvq 2 ≠ 0 →
      0 < (T.R.mulVec ((1 / uvq 2) • ![uvq 0, uvq 1, 1]) + T.t) 2 →
      SE3UVQ_map cam T uvq
        = cam.map (proj2 (T.R.mulVec ((1 / uvq 2) • ![uvq 0, uvq 1, 1]) + T.t)) ∧
      SE3UVQ_pointJac cam T uvq = cam.jac * SE3UVQ_Jx T uvq ∧
      (∀ (a : Fin 2) (j : Fin 3),
        HasDerivAt (fun s => SE3UVQ_premap T (Function.update uvq j s) a)
          (SE3UVQ_Jx T uvq a j) (uvq j)) := by
  intro cam T uvq hq hz
  have hzne : Matrix.mulVec T.R ![(uvq 2)⁻¹ * uvq 0, (uvq 2)⁻¹ * uvq 1, (uvq 2)⁻¹] 2
      + T.t 2 ≠ 0 := by
    have h := ne_of_gt hz
    simpa using h
  refine ⟨rfl, rfl, ?_⟩
  intro a j
  fin_cases a <;> fin_cases j
  · -- row 0, ∂/∂u
    show HasDerivAt (fun s => SE3UVQ_premap T (Function.update uvq 0 s) 0)
      (SE3UVQ_Jx T uvq 0 0) (uvq 0)
    have hfun : (fun s => SE3UVQ_premap T (Function.update uvq 0 s) 0)
        = fun s => (T.R 0 0 * (uvq 2)⁻¹ * s
            + (T.R 0 1 * ((uvq 2)⁻¹ * uvq 1) + T.R 0 2 * (uvq 2)⁻¹ + T.t 0))
          / (T.R 2 0 * (uvq 2)⁻¹ * s
            + (T.R 2 1 * ((uvq 2)⁻¹ * uvq 1) + T.R 2 2 * (uvq 2)⁻¹ + T.t 2)) := by
      funext s
      simp [SE3UVQ_premap, proj2, Matrix.mulVec, Matrix.dotProduct, Fin.sum_univ_three,
        Function.update, Matrix.vecHead, Matrix.vecTail]
      ring
    have hZ : T.R 2 0 * (uvq 2)⁻¹ * uvq 0
        + (T.R 2 1 * ((uvq 2)⁻¹ * uvq 1) + T.R 2 2 * (uvq 2)⁻¹ + T.t 2)
        = Matrix.mulVec T.R ![(uvq 2)⁻¹ * uvq 0, (uvq 2)⁻¹ * uvq 1, (uvq 2)⁻¹] 2 + T.t 2 := by
      simp [Matrix.mulVec, Matrix.dotProduct, Fin.sum_univ_three, Matrix.vecHead,
        Matrix.vecTail]
      ring
    have hX : T.R 0 0 * (uvq 2)⁻¹ * uvq 0
        + (T.R 0 1 * ((uvq 2)⁻¹ * uvq 1) + T.R 0 2 * (uvq 2)⁻¹ + T.t 0)
        = Matrix.mulVec T.R ![(uvq 2)⁻¹ * uvq 0, (uvq 2)⁻¹ * uvq 1, (uvq 2)⁻¹] 0 + T.t 0 := by
      simp [Matrix.mulVec, Matrix.dotProduct, Fin.sum_univ_three, Matrix.vecHead,
        Matrix.vecTail]
      ring
    have hden : T.R 2 0 * (uvq 2)⁻¹ * uvq 0
        + (T.R 2 1 * ((uvq 2)⁻¹ * uvq 1) + T.R 2 2 * (uvq 2)⁻¹ + T.t 2) ≠ 0 := by
      rw [hZ]; exact hzne
    have hD := hasDerivAt_div_affine (T.R 0 0 * (uvq 2)⁻¹)
      (T.R 0 1 * ((uvq 2)⁻¹ * uvq 1) + T.R 0 2 * (uvq 2)⁻¹ + T.t 0)
      (T.R 2 0 * (uvq 2)⁻¹)
      (T.R 2 1 * ((uvq 2)⁻¹ * uvq 1) + T.R 2 2 * (uvq 2)⁻¹ + T.t 2) (uvq 0) hden
    have hval : SE3UVQ_Jx T uvq 0 0
        = (T.R 0 0 * (uvq 2)⁻¹
            * (Matrix.mulVec T.R ![(uvq 2)⁻¹ * uvq 0, (uvq 2)⁻¹ * uvq 1, (uvq 2)⁻¹] 2 + T.t 2)
          - (Matrix.mulVec T.R ![(uvq 2)⁻¹ * uvq 0, (uvq 2)⁻¹ * uvq 1, (uvq 2)⁻¹] 0 + T.t 0)
            * (T.R 2 0 * (uvq 2)⁻¹))
          / (Matrix.mulVec T.R ![(uvq 2)⁻¹ * uvq 0, (uvq 2)⁻¹ * uvq 1, (uvq 2)⁻¹] 2
              + T.t 2) ^ 2 := by
      simp only [SE3UVQ_Jx]
      simp [Matrix.mul_apply, Fin.sum_univ_three, Matrix.vecHead, Matrix.vecTail]
      generalize Matrix.mulVec T.R ![(uvq 2)⁻¹ * uvq 0, (uvq 2)⁻¹ * uvq 1, (uvq 2)⁻¹] 0
        = MX at hzne ⊢
      generalize Matrix.mulVec T.R ![(uvq 2)⁻¹ * uvq 0, (uvq 2)⁻¹ * uvq 1, (uvq 2)⁻¹] 2
        = MZ at hzne ⊢
      field_simp
      ring
    rw [hfun, hval]
    rw [hZ, hX] at hD
    exact hD
  · -- row 0, ∂/∂v
    show HasDerivAt (fun s => SE3UVQ_premap T (Function.update uvq 1 s) 0)
      (SE3UVQ_Jx T uvq 0 1) (uvq 1)
    have hfun : (fun s => SE3UVQ_premap T (Function.update uvq 1 s) 0)
        = fun s => (T.R 0 1 * (uvq 2)⁻¹ * s
            + (T.R 0 0 * ((uvq 2)⁻¹ * uvq 0) + T.R 0 2 * (uvq 2)⁻¹ + T.t 0))
          / (T.R 2 1 * (uvq 2)⁻¹ * s
            + (T.R 2 0 * ((uvq 2)⁻¹ * uvq 0) + T.R 2 2 * (uvq 2)⁻¹ + T.t 2)) := by
      funext s
      simp [SE3UVQ_premap, proj2, Matrix.mulVec, Matrix.dotProduct, Fin.sum_univ_three,
        Function.update, Matrix.vecHead, Matrix.vecTail]
      ring
    have hZ : T.R 2 1 * (uvq 2)⁻¹ * uvq 1
        + (T.R 2 0 * ((uvq 2)⁻¹ * uvq 0) + T.R 2 2 * (uvq 2)⁻¹ + T.t 2)
        = Matrix.mulVec T.R ![(uvq 2)⁻¹ * uvq 0, (uvq 2)⁻¹ * uvq 1, (uvq 2)⁻¹] 2 + T.t 2 := by
      simp [Matrix.mulVec, Matrix.dotProduct, Fin.sum_univ_three, Matrix.vecHead,
        Matrix.vecTail]
      ring
    have hX : T.R 0 1 * (uvq 2)⁻¹ * uvq 1
        + (T.R 0 0 * ((uvq 2)⁻¹ * uvq 0) + T.R 0 2 * (uvq 2)⁻¹ + T.t 0)
        = Matrix.mulVec T.R ![(uvq 2)⁻¹ * uvq 0, (uvq 2)⁻¹ * uvq 1, (uvq 2)⁻¹] 0 + T.t 0 := by
      simp [Matrix.mulVec, Matrix.dotProduct, Fin.sum_univ_three, Matrix.vecHead,
        Matrix.vecTail]
      ring
    have hden : T.R 2 1 * (uvq 2)⁻¹ * uvq 1
        + (T.R 2 0 * ((uvq 2)⁻¹ * uvq 0) + T.R 2 2 * (uvq 2)⁻¹ + T.t 2) ≠ 0 := by
      rw [hZ]; exact hzne
    have hD := hasDerivAt_div_affine (T.R 0 1 * (uvq 2)⁻¹)
      (T.R 0 0 * ((uvq 2)⁻¹ * uvq 0) + T.R 0 2 * (uvq 2)⁻¹ + T.t 0)
      (T.R 2 1 * (uvq 2)⁻¹)
      (T.R 2 0 * ((uvq 2)⁻¹ * uvq 0) + T.R 2 2 * (uvq 2)⁻¹ + T.t 2) (uvq 1) hden
    have hval : SE3UVQ_Jx T uvq 0 1
        = (T.R 0 1 * (uvq 2)⁻¹
            * (Matrix.mulVec T.R ![(uvq 2)⁻¹ * uvq 0, (uvq 2)⁻¹ * uvq 1, (uvq 2)⁻¹] 2 + T.t 2)
          - (Matrix.mulVec T.R ![(uvq 2)⁻¹ * uvq 0, (uvq 2)⁻¹ * uvq 1, (uvq 2)⁻¹] 0 + T.t 0)
            * (T.R 2 1 * (uvq 2)⁻¹))
          / (Matrix.mulVec T.R ![(uvq 2)⁻¹ * uvq 0, (uvq 2)⁻¹ * uvq 1, (uvq 2)⁻¹] 2
              + T.t 2) ^ 2 := by
      simp only [SE3UVQ_Jx]
      simp [Matrix.mul_apply, Fin.sum_univ_three, Matrix.vecHead, Matrix.vecTail]
      generalize Matrix.mulVec T.R ![(uvq 2)⁻¹ * uvq 0, (uvq 2)⁻¹ * uvq 1, (uvq 2)⁻¹] 0
        = MX at hzne ⊢
      generalize Matrix.mulVec T.R ![(uvq 2)⁻¹ * uvq 0, (uvq 2)⁻¹ * uvq 1, (uvq 2)⁻¹] 2
        = MZ at hzne ⊢
      field_simp
      ring
    rw [hfun, hval]
    rw [hZ, hX] at hD
    exact hD
  · -- row 0, ∂/∂q
    show HasDerivAt (fun s => SE3UVQ_premap T (Function.update uvq 2 s) 0)
      (SE3UVQ_Jx T uvq 0 2) (uvq 2)
    have hfun : (fun s => SE3UVQ_premap T (Function.update uvq 2 s) 0)
        = fun s => ((T.R 0 0 * uvq 0 + T.R 0 1 * uvq 1 + T.R 0 2) * s⁻¹ + T.t 0)
          / ((T.R 2 0 * uvq 0 + T.R 2 1 * uvq 1 + T.R 2 2) * s⁻¹ + T.t 2) := by
      funext s
      simp [SE3UVQ_premap, proj2, Matrix.mulVec, Matrix.dotProduct, Fin.sum_univ_three,
        Function.update, Matrix.vecHead, Matrix.vecTail]
      ring
    have hA : T.R 0 0 * uvq 0 + T.R 0 1 * uvq 1 + T.R 0 2
        = Matrix.mulVec T.R ![(uvq 2)⁻¹ * uvq 0, (uvq 2)⁻¹ * uvq 1, (uvq 2)⁻¹] 0 * uvq 2 := by
      simp [Matrix.mulVec, Matrix.dotProduct, Fin.sum_univ_three, Matrix.vecHead,
        Matrix.vecTail]
      field_simp
    have hC : T.R 2 0 * uvq 0 + T.R 2 1 * uvq 1 + T.R 2 2
        = Matrix.mulVec T.R ![(uvq 2)⁻¹ * uvq 0, (uvq 2)⁻¹ * uvq 1, (uvq 2)⁻¹] 2 * uvq 2 := by
      simp [Matrix.mulVec, Matrix.dotProduct, Fin.sum_univ_three, Matrix.vecHead,
        Matrix.vecTail]
      field_simp
    have hdq : (T.R 2 0 * uvq 0 + T.R 2 1 * uvq 1 + T.R 2 2) * (uvq 2)⁻¹ + T.t 2 ≠ 0 := by
      rw [hC, mul_inv_cancel_right₀ hq]
      exact hzne
    have hD := hasDerivAt_div_inv (T.R 0 0 * uvq 0 + T.R 0 1 * uvq 1 + T.R 0 2) (T.t 0)
      (T.R 2 0 * uvq 0 + T.R 2 1 * uvq 1 + T.R 2 2) (T.t 2) (uvq 2) hq hdq
    have hval : SE3UVQ_Jx T uvq 0 2
        = ((T.R 0 0 * uvq 0 + T.R 0 1 * uvq 1 + T.R 0 2) * -(uvq 2 ^ 2)⁻¹
            * ((T.R 2 0 * uvq 0 + T.R 2 1 * uvq 1 + T.R 2 2) * (uvq 2)⁻¹ + T.t 2)
          - ((T.R 0 0 * uvq 0 + T.R 0 1 * uvq 1 + T.R 0 2) * (uvq 2)⁻¹ + T.t 0)
            * ((T.R 2 0 * uvq 0 + T.R 2 1 * uvq 1 + T.R 2 2) * -(uvq 2 ^ 2)⁻¹))
          / ((T.R 2 0 * uvq 0 + T.R 2 1 * uvq 1 + T.R 2 2) * (uvq 2)⁻¹ + T.t 2) ^ 2 := by
      rw [hA, hC]
      simp only [SE3UVQ_Jx]
      simp [Matrix.mul_apply, Fin.sum_univ_three, Matrix.vecHead, Matrix.vecTail]
      generalize Matrix.mulVec T.R ![(uvq 2)⁻¹ * uvq 0, (uvq 2)⁻¹ * uvq 1, (uvq 2)⁻¹] 0
        = MX at hzne ⊢
      generalize Matrix.mulVec T.R ![(uvq 2)⁻¹ * uvq 0, (uvq 2)⁻¹ * uvq 1, (uvq 2)⁻¹] 2
        = MZ at hzne ⊢
      field_simp
      ring
    rw [hfun, hval]
    exact hD
  · -- row 1, ∂/∂u
    show HasDerivAt (fun s => SE3UVQ_premap T (Function.update uvq 0 s) 1)
      (SE3UVQ_Jx T uvq 1 0) (uvq 0)
    have hfun : (fun s => SE3UVQ_premap T (Function.update uvq 0 s) 1)
        = fun s => (T.R 1 0 * (uvq 2)⁻¹ * s
            + (T.R 1 1 * ((uvq 2)⁻¹ * uvq 1) + T.R 1 2 * (uvq 2)⁻¹ + T.t 1))
          / (T.R 2 0 * (uvq 2)⁻¹ * s
            + (T.R 2 1 * ((uvq 2)⁻¹ * uvq 1) + T.R 2 2 * (uvq 2)⁻¹ + T.t 2)) := by
      funext s
      simp [SE3UVQ_premap, proj2, Matrix.mulVec, Matrix.dotProduct, Fin.sum_univ_three,
        Function.update, Matrix.vecHead, Matrix.vecTail]
      ring
    have hZ : T.R 2 0 * (uvq 2)⁻¹ * uvq 0
        + (T.R 2 1 * ((uvq 2)⁻¹ * uvq 1) + T.R 2 2 * (uvq 2)⁻¹ + T.t 2)
        = Matrix.mulVec T.R ![(uvq 2)⁻¹ * uvq 0, (uvq 2)⁻¹ * uvq 1, (uvq 2)⁻¹] 2 + T.t 2 := by
      simp [Matrix.mulVec, Matrix.dotProduct, Fin.sum_univ_three, Matrix.vecHead,
        Matrix.vecTail]
      ring
    have hX : T.R 1 0 * (uvq 2)⁻¹ * uvq 0
        + (T.R 1 1 * ((uvq 2)⁻¹ * uvq 1) + T.R 1 2 * (uvq 2)⁻¹ + T.t 1)
        = Matrix.mulVec T.R ![(uvq 2)⁻¹ * uvq 0, (uvq 2)⁻¹ * uvq 1, (uvq 2)⁻¹] 1 + T.t 1 := by
      simp [Matrix.mulVec, Matrix.dotProduct, Fin.sum_univ_three, Matrix.vecHead,
        Matrix.vecTail]
      ring
    have hden : T.R 2 0 * (uvq 2)⁻¹ * uvq 0
        + (T.R 2 1 * ((uvq 2)⁻¹ * uvq 1) + T.R 2 2 * (uvq 2)⁻¹ + T.t 2) ≠ 0 := by
      rw [hZ]; exact hzne
    have hD := hasDerivAt_div_affine (T.R 1 0 * (uvq 2)⁻¹)
      (T.R 1 1 * ((uvq 2)⁻¹ * uvq 1) + T.R 1 2 * (uvq 2)⁻¹ + T.t 1)
      (T.R 2 0 * (uvq 2)⁻¹)
      (T.R 2 1 * ((uvq 2)⁻¹ * uvq 1) + T.R 2 2 * (uvq 2)⁻¹ + T.t 2) (uvq 0) hden
    have hval : SE3UVQ_Jx T uvq 1 0
        = (T.R 1 0 * (uvq 2)⁻¹
            * (Matrix.mulVec T.R ![(uvq 2)⁻¹ * uvq 0, (uvq 2)⁻¹ * uvq 1, (uvq 2)⁻¹] 2 + T.t 2)
          - (Matrix.mulVec T.R ![(uvq 2)⁻¹ * uvq 0, (uvq 2)⁻¹ * uvq 1, (uvq 2)⁻¹] 1 + T.t 1)
            * (T.R 2 0 * (uvq 2)⁻¹))
          / (Matrix.mulVec T.R ![(uvq 2)⁻¹ * uvq 0, (uvq 2)⁻¹ * uvq 1, (uvq 2)⁻¹] 2
              + T.t 2) ^ 2 := by
      simp only [SE3UVQ_Jx]
      simp [Matrix.mul_apply, Fin.sum_univ_three, Matrix.vecHead, Matrix.vecTail]
      generalize Matrix.mulVec T.R ![(uvq 2)⁻¹ * uvq 0, (uvq 2)⁻¹ * uvq 1, (uvq 2)⁻¹] 1
        = MY at hzne ⊢
      generalize Matrix.mulVec T.R ![(uvq 2)⁻¹ * uvq 0, (uvq 2)⁻¹ * uvq 1, (uvq 2)⁻¹] 2
        = MZ at hzne ⊢
      field_simp
      ring
    rw [hfun, hval]
    rw [hZ, hX] at hD
    exact hD
  · -- row 1, ∂/∂v
    show HasDerivAt (fun s => SE3UVQ_premap T (Function.update uvq 1 s) 1)
      (SE3UVQ_Jx T uvq 1 1) (uvq 1)
    have hfun : (fun s => SE3UVQ_premap T (Function.update uvq 1 s) 1)
        = fun s => (T.R 1 1 * (uvq 2)⁻¹ * s
            + (T.R 1 0 * ((uvq 2)⁻¹ * uvq 0) + T.R 1 2 * (uvq 2)⁻¹ + T.t 1))
          / (T.R 2 1 * (uvq 2)⁻¹ * s
            + (T.R 2 0 * ((uvq 2)⁻¹ * uvq 0) + T.R 2 2 * (uvq 2)⁻¹ + T.t 2)) := by
      funext s
      simp [SE3UVQ_premap, proj2, Matrix.mulVec, Matrix.dotProduct, Fin.sum_univ_three,
        Function.update, Matrix.vecHead, Matrix.vecTail]
      ring
    have hZ : T.R 2 1 * (uvq 2)⁻¹ * uvq 1
        + (T.R 2 0 * ((uvq 2)⁻¹ * uvq 0) + T.R 2 2 * (uvq 2)⁻¹ + T.t 2)
        = Matrix.mulVec T.R ![(uvq 2)⁻¹ * uvq 0, (uvq 2)⁻¹ * uvq 1, (uvq 2)⁻¹] 2 + T.t 2 := by
      simp [Matrix.mulVec, Matrix.dotProduct, Fin.sum_univ_three, Matrix.vecHead,
        Matrix.vecTail]
      ring
    have hX : T.R 1 1 * (uvq 2)⁻¹ * uvq 1
        + (T.R 1 0 * ((uvq 2)⁻¹ * uvq 0) + T.R 1 2 * (uvq 2)⁻¹ + T.t 1)
        = Matrix.mulVec T.R ![(uvq 2)⁻¹ * uvq 0, (uvq 2)⁻¹ * uvq 1, (uvq 2)⁻¹] 1 + T.t 1 := by
      simp [Matrix.mulVec, Matrix.dotProduct, Fin.sum_univ_three, Matrix.vecHead,
        Matrix.vecTail]
      ring
    have hden : T.R 2 1 * (uvq 2)⁻¹ * uvq 1
        + (T.R 2 0 * ((uvq 2)⁻¹ * uvq 0) + T.R 2 2 * (uvq 2)⁻¹ + T.t 2) ≠ 0 := by
      rw [hZ]; exact hzne
    have hD := hasDerivAt_div_affine (T.R 1 1 * (uvq 2)⁻¹)
      (T.R 1 0 * ((uvq 2)⁻¹ * uvq 0) + T.R 1 2 * (uvq 2)⁻¹ + T.t 1)
      (T.R 2 1 * (uvq 2)⁻¹)
      (T.R 2 0 * ((uvq 2)⁻¹ * uvq 0) + T.R 2 2 * (uvq 2)⁻¹ + T.t 2) (uvq 1) hden
    have hval : SE3UVQ_Jx T uvq 1 1
        = (T.R 1 1 * (uvq 2)⁻¹
            * (Matrix.mulVec T.R ![(uvq 2)⁻¹ * uvq 0, (uvq 2)⁻¹ * uvq 1, (uvq 2)⁻¹] 2 + T.t 2)
          - (Matrix.mulVec T.R ![(uvq 2)⁻¹ * uvq 0, (uvq 2)⁻¹ * uvq 1, (uvq 2)⁻¹] 1 + T.t 1)
            * (T.R 2 1 * (uvq 2)⁻¹))
          / (Matrix.mulVec T.R ![(uvq 2)⁻¹ * uvq 0, (uvq 2)⁻¹ * uvq 1, (uvq 2)⁻¹] 2
              + T.t 2) ^ 2 := by
      simp only [SE3UVQ_Jx]
      simp [Matrix.mul_apply, Fin.sum_univ_three, Matrix.vecHead, Matrix.vecTail]
      generalize Matrix.mulVec T.R ![(uvq 2)⁻¹ * uvq 0, (uvq 2)⁻¹ * uvq 1, (uvq 2)⁻¹] 1
        = MY at hzne ⊢
      generalize Matrix.mulVec T.R ![(uvq 2)⁻¹ * uvq 0, (uvq 2)⁻¹ * uvq 1, (uvq 2)⁻¹] 2
        = MZ at hzne ⊢
      field_simp
      ring
    rw [hfun, hval]
    rw [hZ, hX] at hD
    exact hD
  · -- row 1, ∂/∂q
    show HasDerivAt (fun s => SE3UVQ_premap T (Function.update uvq 2 s) 1)
      (SE3UVQ_Jx T uvq 1 2) (uvq 2)
    have hfun : (fun s => SE3UVQ_premap T (Function.update uvq 2 s) 1)
        = fun s => ((T.R 1 0 * uvq 0 + T.R 1 1 * uvq 1 + T.R 1 2) * s⁻¹ + T.t 1)
          / ((T.R 2 0 * uvq 0 + T.R 2 1 * uvq 1 + T.R 2 2) * s⁻¹ + T.t 2) := by
      funext s
      simp [SE3UVQ_premap, proj2, Matrix.mulVec, Matrix.dotProduct, Fin.sum_univ_three,
        Function.update, Matrix.vecHead, Matrix.vecTail]
      ring
    have hA : T.R 1 0 * uvq 0 + T.R 1 1 * uvq 1 + T.R 1 2
        = Matrix.mulVec T.R ![(uvq 2)⁻¹ * uvq 0, (uvq 2)⁻¹ * uvq 1, (uvq 2)⁻¹] 1 * uvq 2 := by
      simp [Matrix.mulVec, Matrix.dotProduct, Fin.sum_univ_three, Matrix.vecHead,
        Matrix.vecTail]
      field_simp
    have hC : T.R 2 0 * uvq 0 + T.R 2 1 * uvq 1 + T.R 2 2
        = Matrix.mulVec T.R ![(uvq 2)⁻¹ * uvq 0, (uvq 2)⁻¹ * uvq 1, (uvq 2)⁻¹] 2 * uvq 2 := by
      simp [Matrix.mulVec, Matrix.dotProduct, Fin.sum_univ_three, Matrix.vecHead,
        Matrix.vecTail]
      field_simp
    have hdq : (T.R 2 0 * uvq 0 + T.R 2 1 * uvq 1 + T.R 2 2) * (uvq 2)⁻¹ + T.t 2 ≠ 0 := by
      rw [hC, mul_inv_cancel_right₀ hq]
      exact hzne
    have hD := hasDerivAt_div_inv (T.R 1 0 * uvq 0 + T.R 1 1 * uvq 1 + T.R 1 2) (T.t 1)
      (T.R 2 0 * uvq 0 + T.R 2 1 * uvq 1 + T.R 2 2) (T.t 2) (uvq 2) hq hdq
    have hval : SE3UVQ_Jx T uvq 1 2
        = ((T.R 1 0 * uvq 0 + T.R 1 1 * uvq 1 + T.R 1 2) * -(uvq 2 ^ 2)⁻¹
            * ((T.R 2 0 * uvq 0 + T.R 2 1 * uvq 1 + T.R 2 2) * (uvq 2)⁻¹ + T.t 2)
          - ((T.R 1 0 * uvq 0 + T.R 1 1 * uvq 1 + T.R 1 2) * (uvq 2)⁻¹ + T.t 1)
            * ((T.R 2 0 * uvq 0 + T.R 2 1 * uvq 1 + T.R 2 2) * -(uvq 2 ^ 2)⁻¹))
          / ((T.R 2 0 * uvq 0 + T.R 2 1 * uvq 1 + T.R 2 2) * (uvq 2)⁻¹ + T.t 2) ^ 2 := by
      rw [hA, hC]
      simp only [SE3UVQ_Jx]
      simp [Matrix.mul_apply, Fin.sum_univ_three, Matrix.vecHead, Matrix.vecTail]
      generalize Matrix.mulVec T.R ![(uvq 2)⁻¹ * uvq 0, (uvq 2)⁻¹ * uvq 1, (uvq 2)⁻¹] 1
        = MY at hzne ⊢
      generalize Matrix.mulVec T.R ![(uvq 2)⁻¹ * uvq 0, (uvq 2)⁻¹ * uvq 1, (uvq 2)⁻¹] 2
        = MZ at hzne ⊢
      field_simp
      ring
    rw [hfun, hval]
    exact hD

/-- C9 witness: the identity camera and pose with the inverse-depth point
`(0,0,1)` satisfy `q ≠ 0` and positive depth, and the theorem applies. -/
theorem C9_uvq_map_and_pointJac_witness :
    SE3UVQ_map camW idSE3 uvqW
      = camW.map (proj2 (idSE3.R.mulVec ((1 / uvqW 2) • ![uvqW 0, uvqW 1, 1]) + idSE3.t)) ∧
    SE3UVQ_pointJac camW idSE3 uvqW = camW.jac * SE3UVQ_Jx idSE3 uvqW ∧
    (∀ (a : Fin 2) (j : Fin 3),
      HasDerivAt (fun s => SE3UVQ_premap idSE3 (Function.update uvqW j s) a)
        (SE3UVQ_Jx idSE3 uvqW a j) (uvqW j)) :=
  C9_uvq_map_and_pointJac camW idSE3 uvqW
    (by norm_num [uvqW, Matrix.vecHead, Matrix.vecTail])
    (by norm_num [uvqW, idSE3, Matrix.one_mulVec, Matrix.vecHead, Matrix.vecTail])

end RobotVision
